import Mathlib

/-!
gomacro: the tree-walking statement evaluator.

A shallow embedding of `statement.go` (`evalBlock`, `evalStatements`,
`evalStatement`) together with the parts of the interpreter it calls.

Go methods on `*Env` that may panic become functions returning `Res`:
`none` when the fuel of the model is exhausted, otherwise an `Outcome`
(a normal `(r.Value, []r.Value)` pair or an in-flight panic) and the
environment as left by the call.
-/

namespace Gomacro

/-! ## Syntax (the fragment of go/ast and go/token that is used) -/

/-- Tokens of go/token, plus the four quotation tokens of gomacro. -/
inductive Token
  | ILLEGAL | INT | FLOAT | IMAG | CHAR | STRING
  | ADD | SUB | MUL | QUO | REM | AND | OR | XOR | SHL | SHR | AND_NOT
  | ADD_ASSIGN | SUB_ASSIGN | MUL_ASSIGN | QUO_ASSIGN | REM_ASSIGN
  | LAND | LOR | ARROW | INC | DEC
  | EQL | LSS | GTR | ASSIGN | NOT | NEQ | LEQ | GEQ | DEFINE
  | BREAK | CONTINUE | FALLTHROUGH | GOTO
  | CONST | TYPE | VAR
  | QUOTE | QUASIQUOTE | UNQUOTE | UNQUOTE_SPLICE
  deriving DecidableEq, Repr

/-- Expressions: the node types of go/ast.Expr that the development uses.
Quotation forms are unary expressions whose operator is a quotation token. -/
inductive Expr
  | BadExpr
  | Ident (Name : String)
  | BasicLit (Kind : Token) (Value : String)
  | ParenExpr (X : Expr)
  | UnaryExpr (Op : Token) (X : Expr)
  | BinaryExpr (X : Expr) (Op : Token) (Y : Expr)
  | CallExpr (Fun : Expr) (Args : List Expr)

/-- One `names type = values` line of a declaration (go/ast.ValueSpec). -/
structure ValueSpec where
  Names : List String
  Typ : Option Expr
  Values : List Expr

/-- Declarations (go/ast.Decl). -/
inductive Decl
  | BadDecl
  | GenDecl (Tok : Token) (Specs : List ValueSpec)

/-- Statements: every node type of go/ast.Stmt that `evalStatement` names,
and `BadStmt` for the ones it does not. -/
inductive Stmt
  | BadStmt
  | AssignStmt (Lhs : List Expr) (Tok : Token) (Rhs : List Expr)
  | BlockStmt (Lst : List Stmt)
  | BranchStmt (Tok : Token) (Label : Option String)
  | DeclStmt (Decl : Decl)
  | ExprStmt (X : Expr)
  | ForStmt (Init : Option Stmt) (Cond : Option Expr) (Post : Option Stmt) (Body : List Stmt)
  | IfStmt (Cond : Expr) (Body : List Stmt) (Else : Option Stmt)
  | EmptyStmt
  | ReturnStmt (Results : List Expr)
  | CaseClause (Lst : List Expr) (Body : List Stmt)
  | CommClause (Comm : Option Stmt) (Body : List Stmt)
  | DeferStmt (Call : Expr)
  | GoStmt (Call : Expr)
  | IncDecStmt (X : Expr) (Tok : Token)
  | LabeledStmt (Label : String) (S : Stmt)
  | RangeStmt (Key : Option Expr) (Value : Option Expr) (Tok : Token) (X : Expr) (Body : List Stmt)
  | SelectStmt (Body : List Stmt)
  | SendStmt (Chan : Expr) (Value : Expr)
  | SwitchStmt (Init : Option Stmt) (Tag : Option Expr) (Body : List Stmt)
  | TypeSwitchStmt (Init : Option Stmt) (Assign : Stmt) (Body : List Stmt)

/-! ## Values, environments, results -/

/-- The kinds of fixed-width integer types. -/
inductive Kind
  | Int | Int8 | Int16 | Int32 | Int64 | Uint | Uint8 | Uint16 | Uint32 | Uint64
  deriving DecidableEq, Repr

/-- Runtime values (the fragment of the tagged union of the spec, section 3,
that the development uses). `None` and `Nil` are the two distinguished
`r.Value`s of the interpreter; `const` is an untyped integer constant. -/
inductive Value
  | None
  | Nil
  | bool (b : Bool)
  | const (n : Int)
  | int (k : Kind) (n : Int)
  | str (s : String)
  | node (x : Expr)

/-- The interpreter's `Env`: the bindings of one scope and the enclosing
scope (`Outer`); `nil` is the nil pointer that ends the chain. -/
inductive Env
  | nil
  | mk (Binds : List (String × Value)) (Outer : Env)

/-- The error kinds of the spec, section 7. -/
inductive ErrorKind
  | UndefinedName | DuplicateBinding | TypeMismatch | UnimplementedConstruct
  | DivisionByZero
  deriving DecidableEq, Repr

/-- What a Go panic carries while it unwinds the evaluator. -/
inductive Panic
  | RuntimeError (format : String) (node : Stmt)
  | Fault (kind : ErrorKind) (detail : String)
  | Break (label : Option String)
  | Continue (label : Option String)
  | Goto (label : Option String)
  | Fallthrough
  | Return (rets : List Value)
  | User (v : Value)

/-- How a call of an evaluator method ends: it returns its pair
`(r.Value, []r.Value)`, or it panics. -/
inductive Outcome
  | normal (ret : Value) (rets : List Value)
  | abrupt (p : Panic)

/-- Result of a call: `none` is "fuel exhausted"; otherwise the outcome and
the environment of the caller as the call left it. -/
abbrev Res := Option (Outcome × Env)

/-- An evaluator of statements, as passed to the methods that recurse. -/
abbrev Eval := Env → Stmt → Res

/-! ## Fixed-width integers and constants (spec, section 3) -/

/-- Width in bits of an integer kind; `int` and `uint` are taken as 64 bits
wide. -/
def Kind.bits : Kind → Nat
  | .Int8 | .Uint8 => 8
  | .Int16 | .Uint16 => 16
  | .Int32 | .Uint32 => 32
  | .Int | .Int64 | .Uint | .Uint64 => 64

/-- Whether an integer kind is signed. -/
def Kind.signed : Kind → Bool
  | .Int | .Int8 | .Int16 | .Int32 | .Int64 => true
  | .Uint | .Uint8 | .Uint16 | .Uint32 | .Uint64 => false

/-- Modelled from the spec: the conversion to a fixed-width type is not under
src. Section 3: "once collapsed, arithmetic overflow wraps according to the
destination width". Keeps the low `bits` bits of `x` and reads them in the
kind: as they are when unsigned, with the top bit as the sign when signed. -/
def Kind.wrap (k : Kind) (x : ℤ) : ℤ :=
  let u := x % 2 ^ k.bits
  if k.signed && decide ((2 : ℤ) ^ (k.bits - 1) ≤ u) then u - 2 ^ k.bits else u

/-- The values a kind can hold. -/
def Kind.inRange (k : Kind) (x : ℤ) : Prop :=
  if k.signed then -(2 : ℤ) ^ (k.bits - 1) ≤ x ∧ x < 2 ^ (k.bits - 1)
  else 0 ≤ x ∧ x < 2 ^ k.bits

/-- The integer kind a predeclared type name stands for. -/
def kindOfName : String → Option Kind
  | "int" => some .Int
  | "int8" => some .Int8
  | "int16" => some .Int16
  | "int32" => some .Int32
  | "rune" => some .Int32
  | "int64" => some .Int64
  | "uint" => some .Uint
  | "uint8" => some .Uint8
  | "byte" => some .Uint8
  | "uint16" => some .Uint16
  | "uint32" => some .Uint32
  | "uint64" => some .Uint64
  | _ => none

/-- Value of a decimal digit. -/
def digitVal (c : Char) : Option Nat :=
  if 48 ≤ c.toNat ∧ c.toNat ≤ 57 then some (c.toNat - 48) else none

/-- Reads decimal digits, most significant first. -/
def parseDigits : Nat → List Char → Option Nat
  | acc, [] => some acc
  | acc, c :: cs =>
    match digitVal c with
    | some d => parseDigits (10 * acc + d) cs
    | none => none

/-- The integer a decimal literal denotes. -/
def parseInt (s : String) : Option Int :=
  match s.data with
  | [] => none
  | cs => (parseDigits 0 cs).map Int.ofNat

/-- Modelled from the spec: `NewEnv` is not under src. Section 4.1:
`child(parent)` creates a new scope linked to `parent`. -/
def NewEnv (outer : Env) : Env := Env.mk [] outer

/-- The `Outer` field of an environment. -/
def Env.Outer : Env → Env
  | .nil => .nil
  | .mk _ outer => outer

/-- The `Binds` field of an environment. -/
def Env.Binds : Env → List (String × Value)
  | .nil => []
  | .mk binds _ => binds

/-- Modelled from the spec: `Errorf` is not under src. Section 4.3: the
unimplemented kinds "fail with UnimplementedConstruct naming the construct":
the call panics with the format and its argument, the environment untouched. -/
def Errorf (env : Env) (format : String) (node : Stmt) : Res :=
  some (.abrupt (.RuntimeError format node), env)

/-- A panic of the evaluator itself, of the given kind. -/
def fault {σ : Type} (env : σ) (kind : ErrorKind) (detail : String) : Option (Outcome × σ) :=
  some (.abrupt (.Fault kind detail), env)

/-- Turns the result of a pure operation into the result of a call. -/
def ofExcept {σ : Type} (env : σ) : Except Panic Value → Option (Outcome × σ)
  | .ok v => some (.normal v [], env)
  | .error p => some (.abrupt p, env)

/-! ## Environment (spec, section 4.1) -/

/-- Modelled from the spec: `lookup(name)` "searches this scope then
ancestors". -/
def Env.lookup (name : String) : Env → Option Value
  | .nil => none
  | .mk binds outer =>
    match binds.lookup name with
    | some v => some v
    | none => outer.lookup name

/-- Modelled from the spec: `define(name, value)` "inserts a binding visible
from this scope and children, failing with DuplicateBinding if name already
exists in the same scope". -/
def Env.define (name : String) (v : Value) : Env → Except Panic Env
  | .nil => .error (.Fault .UndefinedName "nil environment")
  | .mk binds outer =>
    match binds.lookup name with
    | some _ => .error (.Fault .DuplicateBinding name)
    | none => .ok (.mk (binds ++ [(name, v)]) outer)

/-- Replaces the value bound to `name` in one scope. -/
def setBind (name : String) (v : Value) : List (String × Value) → List (String × Value)
  | [] => []
  | (n, w) :: rest => if n = name then (n, v) :: rest else (n, w) :: setBind name v rest

/-- The value to store in a slot that holds `slot` when `new` is assigned to
it: an untyped constant collapses to the type of the slot, a typed value
must have the type of the slot. -/
def storable : Value → Value → Option Value
  | .int k _, .const n => some (.int k (k.wrap n))
  | .int k _, .int k1 n => if k = k1 then some (.int k1 n) else none
  | .bool _, .bool b => some (.bool b)
  | .str _, .str s => some (.str s)
  | .node _, .node x => some (.node x)
  | .Nil, .const n => some (.int .Int (Kind.Int.wrap n))
  | .Nil, v => some v
  | _, _ => none

/-- Modelled from the spec: `assign(name, value)` "finds the nearest scope
owning name and mutates in place, failing with UndefinedName otherwise"; the
stored value is "the typed/wrapped result" (section 4.3). -/
def Env.assign (name : String) (v : Value) : Env → Except Panic Env
  | .nil => .error (.Fault .UndefinedName name)
  | .mk binds outer =>
    match binds.lookup name with
    | some old =>
      match storable old v with
      | some w => .ok (.mk (setBind name w binds) outer)
      | none => .error (.Fault .TypeMismatch name)
    | none =>
      match outer.assign name v with
      | .ok outer1 => .ok (.mk binds outer1)
      | .error p => .error p

/-- The names each scope of the chain defines, innermost scope first. -/
def Env.names : Env → List (List String)
  | .nil => []
  | .mk binds outer => binds.map Prod.fst :: outer.names

/-! ## Expressions (spec, sections 3, 4.2 and 4.4) -/

/-- Modelled from the spec: the comparison operators on integers (the
expression evaluator is not under src). -/
def compareInt (op : Token) (a b : Int) : Option Bool :=
  match op with
  | .EQL => some (decide (a = b))
  | .NEQ => some (decide (a ≠ b))
  | .LSS => some (decide (a < b))
  | .LEQ => some (decide (a ≤ b))
  | .GTR => some (decide (a > b))
  | .GEQ => some (decide (a ≥ b))
  | _ => none

/-- Modelled from the spec: the arithmetic operators on exact integers;
division truncates towards zero and fails with DivisionByZero. -/
def arithInt (op : Token) (a b : Int) : Except Panic Int :=
  match op with
  | .ADD => .ok (a + b)
  | .SUB => .ok (a - b)
  | .MUL => .ok (a * b)
  | .QUO => if b = 0 then .error (.Fault .DivisionByZero "quotient") else .ok (a.tdiv b)
  | .REM => if b = 0 then .error (.Fault .DivisionByZero "remainder") else .ok (a.tmod b)
  | .AND => .ok (a.land b)
  | .OR => .ok (a.lor b)
  | .XOR => .ok (a.xor b)
  | _ => .error (.Fault .TypeMismatch "operator")

/-- Modelled from the spec: a binary operator on two integers; `conv` turns
the exact result into a value of the type of the operands. -/
def binaryInt (conv : Int → Value) (op : Token) (a b : Int) : Except Panic Value :=
  match compareInt op a b with
  | some r => .ok (.bool r)
  | none =>
    match arithInt op a b with
    | .ok r => .ok (conv r)
    | .error p => .error p

/-- Modelled from the spec: binary operators on values. Section 3: untyped
constants are exact and "only collapse to a fixed-width representation when
... combined with a typed value"; "once collapsed, arithmetic overflow wraps
according to the destination width". -/
def evalBinaryValues (op : Token) : Value → Value → Except Panic Value
  | .const a, .const b => binaryInt Value.const op a b
  | .int k a, .int k1 b =>
    if k = k1 then binaryInt (fun r => .int k (k.wrap r)) op a b
    else .error (.Fault .TypeMismatch "operand types")
  | .int k a, .const b => binaryInt (fun r => .int k (k.wrap r)) op a (k.wrap b)
  | .const a, .int k b => binaryInt (fun r => .int k (k.wrap r)) op (k.wrap a) b
  | .bool a, .bool b =>
    match op with
    | .EQL => .ok (.bool (a == b))
    | .NEQ => .ok (.bool (a != b))
    | .LAND => .ok (.bool (a && b))
    | .LOR => .ok (.bool (a || b))
    | _ => .error (.Fault .TypeMismatch "operator")
  | .str a, .str b =>
    match op with
    | .ADD => .ok (.str (a ++ b))
    | .EQL => .ok (.bool (decide (a = b)))
    | .NEQ => .ok (.bool (decide (a ≠ b)))
    | _ => .error (.Fault .TypeMismatch "operator")
  | _, _ => .error (.Fault .TypeMismatch "operands")

/-- Modelled from the spec: unary operators on values. -/
def evalUnaryValue (op : Token) : Value → Except Panic Value
  | .const a =>
    match op with
    | .ADD => .ok (.const a)
    | .SUB => .ok (.const (-a))
    | .XOR => .ok (.const (-a - 1))
    | _ => .error (.Fault .TypeMismatch "operator")
  | .int k a =>
    match op with
    | .ADD => .ok (.int k a)
    | .SUB => .ok (.int k (k.wrap (-a)))
    | .XOR => .ok (.int k (k.wrap (-a - 1)))
    | _ => .error (.Fault .TypeMismatch "operator")
  | .bool b =>
    match op with
    | .NOT => .ok (.bool (!b))
    | _ => .error (.Fault .TypeMismatch "operator")
  | _ => .error (.Fault .TypeMismatch "operand")

/-- Modelled from the spec: conversion of an integer value to an integer
type. -/
def convertTo (k : Kind) : Value → Except Panic Value
  | .const n => .ok (.int k (k.wrap n))
  | .int _ n => .ok (.int k (k.wrap n))
  | _ => .error (.Fault .TypeMismatch "conversion")

/-- The text of a string literal: `s` between double quotes. -/
def quoteString (s : String) : String :=
  String.singleton (Char.ofNat 34) ++ s ++ String.singleton (Char.ofNat 34)

/-- Modelled from the spec: a value "converted to a syntax node" (section
4.2, quasiquote). -/
def Value.toNode : Value → Option Expr
  | .const n => some (.BasicLit .INT (toString n))
  | .int _ n => some (.BasicLit .INT (toString n))
  | .str s => some (.BasicLit .STRING (quoteString s))
  | .bool b => some (.Ident (if b then "true" else "false"))
  | .node x => some x
  | _ => none

/-- The text between the quotes of a string literal. -/
def unquoteString (s : String) : String := String.mk (s.data.drop 1).dropLast

mutual
/-- Modelled from the spec: the expansion of `quasiquote{X}` is not under
src. Section 4.2: "returns X with every unquote{E} inside replaced by the
result of evaluating E in the current environment, converted to a syntax
node; nesting depth is tracked so that only unquote forms at the matching
quasiquote level are substituted (inner quasiquotes increase nesting,
matching unquotes decrease it)". `ev` evaluates an unquoted expression;
every other node is rebuilt. -/
def quasiquoteIn {σ : Type} (ev : σ → Expr → Option (Outcome × σ)) :
    Nat → σ → Expr → Option (Except Panic Expr × σ)
  | _, env, .BadExpr => some (.ok .BadExpr, env)
  | _, env, .Ident name => some (.ok (.Ident name), env)
  | _, env, .BasicLit kind value => some (.ok (.BasicLit kind value), env)
  | depth, env, .ParenExpr x =>
    match quasiquoteIn ev depth env x with
    | some (.ok y, env) => some (.ok (.ParenExpr y), env)
    | other => other
  | depth, env, .UnaryExpr op x =>
    match op with
    | .UNQUOTE =>
      if depth = 1 then
        match ev env x with
        | some (.normal v _, env) =>
          match v.toNode with
          | some y => some (.ok y, env)
          | none => some (.error (.Fault .TypeMismatch "unquote"), env)
        | some (.abrupt p, env) => some (.error p, env)
        | none => none
      else
        match quasiquoteIn ev (depth - 1) env x with
        | some (.ok y, env) => some (.ok (.UnaryExpr .UNQUOTE y), env)
        | other => other
    | .QUASIQUOTE =>
      match quasiquoteIn ev (depth + 1) env x with
      | some (.ok y, env) => some (.ok (.UnaryExpr .QUASIQUOTE y), env)
      | other => other
    | _ =>
      match quasiquoteIn ev depth env x with
      | some (.ok y, env) => some (.ok (.UnaryExpr op y), env)
      | other => other
  | depth, env, .BinaryExpr x op y =>
    match quasiquoteIn ev depth env x with
    | some (.ok x1, env) =>
      match quasiquoteIn ev depth env y with
      | some (.ok y1, env) => some (.ok (.BinaryExpr x1 op y1), env)
      | other => other
    | other => other
  | depth, env, .CallExpr f args =>
    match quasiquoteIn ev depth env f with
    | some (.ok f1, env) =>
      match quasiquoteListIn ev depth env args with
      | some (.ok args1, env) => some (.ok (.CallExpr f1 args1), env)
      | some (.error p, env) => some (.error p, env)
      | none => none
    | other => other
/-- Modelled from the spec: `quasiquoteIn` over a list of nodes, left to
right. -/
def quasiquoteListIn {σ : Type} (ev : σ → Expr → Option (Outcome × σ)) :
    Nat → σ → List Expr → Option (Except Panic (List Expr) × σ)
  | _, env, [] => some (.ok [], env)
  | depth, env, x :: xs =>
    match quasiquoteIn ev depth env x with
    | some (.ok y, env) =>
      match quasiquoteListIn ev depth env xs with
      | some (.ok ys, env) => some (.ok (y :: ys), env)
      | other => other
    | some (.error p, env) => some (.error p, env)
    | none => none
end

/-- Modelled from the spec: the expression evaluator is not under src.
Section 4.4: literals, identifiers "via Environment lookup", unary and
binary operators; section 4.2: `quote{X}` "returns X verbatim as a syntax
value", `quasiquote{X}` as in `quasiquoteIn`. `unq` evaluates the
expressions unquoted inside a quasiquote. Calls are conversions to an
integer type only. -/
def evalExprIn (unq : Env → Expr → Res) : Env → Expr → Res
  | env, .BadExpr => fault env .TypeMismatch "bad expression"
  | env, .Ident name =>
    match env.lookup name with
    | some v => some (.normal v [], env)
    | none => fault env .UndefinedName name
  | env, .BasicLit kind value =>
    match kind with
    | .INT =>
      match parseInt value with
      | some n => some (.normal (.const n) [], env)
      | none => fault env .TypeMismatch value
    | .STRING => some (.normal (.str (unquoteString value)) [], env)
    | _ => fault env .UnimplementedConstruct value
  | env, .ParenExpr x => evalExprIn unq env x
  | env, .UnaryExpr op x =>
    match op with
    | .QUOTE => some (.normal (.node x) [], env)
    | .QUASIQUOTE =>
      match quasiquoteIn unq 1 env x with
      | some (.ok y, env) => some (.normal (.node y) [], env)
      | some (.error p, env) => some (.abrupt p, env)
      | none => none
    | .UNQUOTE => fault env .TypeMismatch "unquote outside quasiquote"
    | .UNQUOTE_SPLICE => fault env .TypeMismatch "unquote_splice outside quasiquote"
    | _ =>
      match evalExprIn unq env x with
      | some (.normal v _, env) => ofExcept env (evalUnaryValue op v)
      | other => other
  | env, .BinaryExpr x op y =>
    match evalExprIn unq env x with
    | some (.normal xv _, env) =>
      match op, xv with
      | .LAND, .bool false => some (.normal (.bool false) [], env)
      | .LOR, .bool true => some (.normal (.bool true) [], env)
      | _, _ =>
        match evalExprIn unq env y with
        | some (.normal yv _, env) => ofExcept env (evalBinaryValues op xv yv)
        | other => other
    | other => other
  | env, .CallExpr f args =>
    match f, args with
    | .Ident name, [arg] =>
      match kindOfName name with
      | some k =>
        match evalExprIn unq env arg with
        | some (.normal v _, env) => ofExcept env (convertTo k v)
        | other => other
      | none => fault env .UnimplementedConstruct name
    | _, _ => fault env .UnimplementedConstruct "call"

/-- Modelled from the spec: `evalExpr`; the fuel bounds how deep
quasiquotes nest inside unquoted expressions. -/
def evalExpr : Nat → Env → Expr → Res
  | 0 => evalExprIn (fun _ _ => none)
  | fuel + 1 => evalExprIn (evalExpr fuel)

/-- Modelled from the spec: a list of expressions evaluated "in order"
(section 4.3), each for its single value. -/
def evalExprsIn {σ : Type} (ev : σ → Expr → Option (Outcome × σ)) :
    σ → List Expr → Option (Except Panic (List Value) × σ)
  | env, [] => some (.ok [], env)
  | env, x :: xs =>
    match ev env x with
    | some (.normal v _, env) =>
      match evalExprsIn ev env xs with
      | some (.ok vs, env) => some (.ok (v :: vs), env)
      | other => other
    | some (.abrupt p, env) => some (.error p, env)
    | none => none

/-! ## Statements other than blocks (spec, section 4.3) -/

/-- Modelled from the spec: "Result packing" (section 6): the first value,
and the whole sequence when there is more than one. -/
def unpackValues : List Value → Value × List Value
  | [] => (.None, [])
  | [v] => (v, [])
  | v :: vs => (v, v :: vs)

/-- Modelled from the spec: an untyped constant bound to a new name with no
declared type collapses to `int`. -/
def Value.defaultTyped : Value → Value
  | .const n => .int .Int (Kind.Int.wrap n)
  | v => v

/-- The binary operator of a compound assignment token. -/
def compoundOp : Token → Option Token
  | .ADD_ASSIGN => some .ADD
  | .SUB_ASSIGN => some .SUB
  | .MUL_ASSIGN => some .MUL
  | .QUO_ASSIGN => some .QUO
  | .REM_ASSIGN => some .REM
  | _ => none

/-- Modelled from the spec: one left-hand side of an assignment receives its
value: `=` mutates, `:=` defines, and a compound form "fetches the current
value, applies the operator, and stores the typed/wrapped result". Returns
the value stored. -/
def placeOne (env : Env) (lhs : Expr) (tok : Token) (v : Value) : Except Panic (Value × Env) :=
  match lhs with
  | .Ident name =>
    match tok with
    | .DEFINE =>
      match env.define name v.defaultTyped with
      | .ok env1 => .ok (v.defaultTyped, env1)
      | .error p => .error p
    | .ASSIGN =>
      match env.assign name v with
      | .ok env1 => .ok ((env1.lookup name).getD .None, env1)
      | .error p => .error p
    | _ =>
      match compoundOp tok with
      | some op =>
        match env.lookup name with
        | some cur =>
          match evalBinaryValues op cur v with
          | .ok r =>
            match env.assign name r with
            | .ok env1 => .ok ((env1.lookup name).getD .None, env1)
            | .error p => .error p
          | .error p => .error p
        | none => .error (.Fault .UndefinedName name)
      | none => .error (.Fault .TypeMismatch "assignment operator")
  | _ => .error (.Fault .UnimplementedConstruct "assignment target")

/-- Modelled from the spec: "performs left-hand bindings/mutations in source
order". -/
def placeAll (tok : Token) : Env → List Expr → List Value → Except Panic (List Value) × Env
  | env, [], [] => (.ok [], env)
  | env, l :: ls, v :: vs =>
    match placeOne env l tok v with
    | .ok (w, env1) =>
      match placeAll tok env1 ls vs with
      | (.ok ws, env2) => (.ok (w :: ws), env2)
      | other => other
    | .error p => (.error p, env)
  | env, _, _ => (.error (.Fault .TypeMismatch "assignment count"), env)

/-- Modelled from the spec: `evalAssignments` is not under src. Section 4.3,
Assignment: "evaluates right-hand expressions first (left to right), then
performs left-hand bindings/mutations in source order". -/
def evalAssignments (evalExpr : Env → Expr → Res) (env : Env) (lhs : List Expr) (tok : Token)
    (rhs : List Expr) : Res :=
  match evalExprsIn evalExpr env rhs with
  | some (.ok vs, env) =>
    match placeAll tok env lhs vs with
    | (.ok ws, env) => some (.normal (unpackValues ws).1 (unpackValues ws).2, env)
    | (.error p, env) => some (.abrupt p, env)
  | some (.error p, env) => some (.abrupt p, env)
  | none => none

/-- Modelled from the spec: `evalBranch` is not under src. Section 4.3,
Branch: "signaled as a non-local control value that propagates up through
block evaluation until a matching enclosing construct consumes it". -/
def evalBranch (env : Env) (tok : Token) (label : Option String) : Res :=
  match tok with
  | .BREAK => some (.abrupt (.Break label), env)
  | .CONTINUE => some (.abrupt (.Continue label), env)
  | .GOTO => some (.abrupt (.Goto label), env)
  | .FALLTHROUGH => some (.abrupt .Fallthrough, env)
  | _ => fault env .TypeMismatch "branch"

/-- The zero value of a type named by a type expression. -/
def zeroValue : Expr → Option Value
  | .Ident name =>
    match kindOfName name with
    | some k => some (.int k 0)
    | none =>
      match name with
      | "bool" => some (.bool false)
      | "string" => some (.str "")
      | _ => none
  | _ => none

/-- Modelled from the spec: the value a declaration binds: of the declared
type when there is one, else of the default type. -/
def typedAs (typ : Option Expr) (v : Value) : Except Panic Value :=
  match typ with
  | none => .ok v.defaultTyped
  | some t =>
    match zeroValue t with
    | some z =>
      match storable z v with
      | some w => .ok w
      | none => .error (.Fault .TypeMismatch "declared type")
    | none => .error (.Fault .UnimplementedConstruct "type")

/-- Modelled from the spec: the names of one declaration line are defined in
the current scope, in order. -/
def defineAll (typ : Option Expr) : Env → List String → List Value → Except Panic (List Value) × Env
  | env, [], [] => (.ok [], env)
  | env, n :: ns, v :: vs =>
    match typedAs typ v with
    | .ok w =>
      match env.define n w with
      | .ok env1 =>
        match defineAll typ env1 ns vs with
        | (.ok ws, env2) => (.ok (w :: ws), env2)
        | other => other
      | .error p => (.error p, env)
    | .error p => (.error p, env)
  | env, _, _ => (.error (.Fault .TypeMismatch "declaration count"), env)

/-- Modelled from the spec: one line of a `var` declaration: without values
the names take the zero value of the declared type. -/
def evalValueSpec (evalExpr : Env → Expr → Res) (env : Env) (spec : ValueSpec) : Res :=
  match spec.Values with
  | [] =>
    match spec.Typ with
    | some t =>
      match zeroValue t with
      | some z =>
        match defineAll none env spec.Names (List.replicate spec.Names.length z) with
        | (.ok ws, env) => some (.normal (unpackValues ws).1 (unpackValues ws).2, env)
        | (.error p, env) => some (.abrupt p, env)
      | none => fault env .UnimplementedConstruct "type"
    | none => fault env .TypeMismatch "missing type"
  | values =>
    match evalExprsIn evalExpr env values with
    | some (.ok vs, env) =>
      match defineAll spec.Typ env spec.Names vs with
      | (.ok ws, env) => some (.normal (unpackValues ws).1 (unpackValues ws).2, env)
      | (.error p, env) => some (.abrupt p, env)
    | some (.error p, env) => some (.abrupt p, env)
    | none => none

/-- Modelled from the spec: the lines of a declaration, in order; the result
is that of the last line. -/
def evalValueSpecs (evalExpr : Env → Expr → Res) : Value → List Value → Env → List ValueSpec → Res
  | ret, rets, env, [] => some (.normal ret rets, env)
  | _, _, env, spec :: specs =>
    match evalValueSpec evalExpr env spec with
    | some (.normal ret rets, env) => evalValueSpecs evalExpr ret rets env specs
    | other => other

/-- Modelled from the spec: `evalDecl` is not under src. Section 4.3,
Declaration: "introduces new bindings into the current scope"; of the three
forms only `var` is modelled. -/
def evalDecl (evalExpr : Env → Expr → Res) (env : Env) : Decl → Res
  | .GenDecl .VAR specs => evalValueSpecs evalExpr .None [] env specs
  | .GenDecl _ _ => fault env .UnimplementedConstruct "declaration"
  | .BadDecl => fault env .TypeMismatch "bad declaration"

/-- Modelled from the spec: `evalIf` is not under src. Section 4.3, If:
"evaluates condition; if true, evaluates the then branch in a child scope;
else the optional else branch". The branches are evaluated by `ev`, which
gives a block its child scope. -/
def evalIf (evalExpr : Env → Expr → Res) (ev : Eval) (env : Env) (cond : Expr)
    (body : List Stmt) (els : Option Stmt) : Res :=
  match evalExpr env cond with
  | some (.normal (.bool true) _, env) => ev env (.BlockStmt body)
  | some (.normal (.bool false) _, env) =>
    match els with
    | some s => ev env s
    | none => some (.normal .None [], env)
  | some (.normal _ _, env) => fault env .TypeMismatch "if condition"
  | other => other

/-- Modelled from the spec: the condition of a loop: "if absent, always
true". -/
def evalCond (evalExpr : Env → Expr → Res) (env : Env) : Option Expr → Res
  | none => some (.normal (.bool true) [], env)
  | some c => evalExpr env c

/-- Modelled from the spec: the post statement of a loop, when there is
one. -/
def evalPost (ev : Eval) (env : Env) : Option Stmt → Res
  | none => some (.normal .None [], env)
  | some p => ev env p

/-- Modelled from the spec: the iterations of a loop. Section 4.3, For:
"repeatedly: condition (if absent, always true) → if false, stop; else
evaluate body in a fresh child scope, evaluate post, repeat. A continue
skips straight to post; a break stops the loop immediately". The first
argument bounds the number of iterations. -/
def evalForLoop (evalExpr : Env → Expr → Res) (ev : Eval) (cond : Option Expr)
    (post : Option Stmt) (body : List Stmt) : Nat → Env → Res
  | 0, _ => none
  | n + 1, env =>
    match evalCond evalExpr env cond with
    | some (.normal (.bool false) _, env) => some (.normal .None [], env)
    | some (.normal (.bool true) _, env) =>
      match ev env (.BlockStmt body) with
      | some (.abrupt (.Break none), env) => some (.normal .None [], env)
      | some (.normal _ _, env) | some (.abrupt (.Continue none), env) =>
        match evalPost ev env post with
        | some (.normal _ _, env) => evalForLoop evalExpr ev cond post body n env
        | other => other
      | other => other
    | some (.normal _ _, env) => fault env .TypeMismatch "for condition"
    | other => other

/-- Modelled from the spec: `evalFor` is not under src. Section 4.3, For:
"evaluates init once, then repeatedly ...". -/
def evalFor (fuel : Nat) (evalExpr : Env → Expr → Res) (ev : Eval) (env : Env)
    (init : Option Stmt) (cond : Option Expr) (post : Option Stmt) (body : List Stmt) : Res :=
  match init with
  | none => evalForLoop evalExpr ev cond post body fuel env
  | some s =>
    match ev env s with
    | some (.normal _ _, env) => evalForLoop evalExpr ev cond post body fuel env
    | other => other

/-- Modelled from the spec: `evalReturn` is not under src. Section 4.3,
Return: "evaluates all result expressions in order and propagates them as
the multi-value result, unwinding enclosing block scopes". -/
def evalReturn (evalExpr : Env → Expr → Res) (env : Env) (results : List Expr) : Res :=
  match evalExprsIn evalExpr env results with
  | some (.ok vs, env) => some (.abrupt (.Return vs), env)
  | some (.error p, env) => some (.abrupt p, env)
  | none => none

/-- The methods of `Env` that `evalStatement` calls and that are not under
src. Each receives the fuel left and the statement evaluator it may call
back. -/
structure Handlers where
  evalAssignments : Nat → Eval → Env → List Expr → Token → List Expr → Res
  evalBranch : Nat → Eval → Env → Token → Option String → Res
  evalDecl : Nat → Eval → Env → Decl → Res
  evalExpr : Nat → Eval → Env → Expr → Res
  evalFor : Nat → Eval → Env → Option Stmt → Option Expr → Option Stmt → List Stmt → Res
  evalIf : Nat → Eval → Env → Expr → List Stmt → Option Stmt → Res
  evalReturn : Nat → Eval → Env → List Expr → Res

/-! ## statement.go -/

/-- The loop of `evalStatements`, with its two variables `ret`, `rets`:
`for _, stmt := range list { ret, rets = env.evalStatement(stmt) }`.
A panic of `evalStatement` leaves the loop. -/
def evalStatementsLoop {σ : Type} (ev : σ → Stmt → Option (Outcome × σ)) :
    Value → List Value → σ → List Stmt → Option (Outcome × σ)
  | ret, rets, env, [] => some (.normal ret rets, env)
  | _, _, env, stmt :: list =>
    match ev env stmt with
    | some (.normal ret rets, env) => evalStatementsLoop ev ret rets env list
    | other => other

/-- The body of `evalStatements`, over the evaluator `ev` of one statement:
`ret := None; var rets []r.Value`, the loop, `return ret, rets`. -/
def evalStatementsIn {σ : Type} (ev : σ → Stmt → Option (Outcome × σ))
    (env : σ) (list : List Stmt) : Option (Outcome × σ) :=
  evalStatementsLoop ev Value.None [] env list

/-- The caller of `evalBlock` goes on with its own `env`: the assignment
`env = NewEnv(env)` is local to `evalBlock`, so what the caller holds
afterwards is the `Outer` of the child. -/
def leave : Res → Res
  | some (o, env) => some (o, env.Outer)
  | none => none

/-- The body of `evalBlock`, over the evaluator `ev` of one statement:
`env = NewEnv(env); return env.evalStatements(block.List)`. -/
def evalBlockIn (ev : Eval) (env : Env) (block : List Stmt) : Res :=
  let env := NewEnv env
  leave (evalStatementsIn ev env block)

/-- The type switch of `evalStatement`. One unit of fuel is spent per nested
call of `evalStatement`. -/
def evalStatement (H : Handlers) : Nat → Env → Stmt → Res
  | 0, _, _ => none
  | fuel + 1, env, node =>
    match node with
    | .AssignStmt lhs tok rhs => H.evalAssignments fuel (evalStatement H fuel) env lhs tok rhs
    | .BlockStmt list => evalBlockIn (evalStatement H fuel) env list
    | .BranchStmt tok label => H.evalBranch fuel (evalStatement H fuel) env tok label
    | .DeclStmt decl => H.evalDecl fuel (evalStatement H fuel) env decl
    | .ExprStmt x => H.evalExpr fuel (evalStatement H fuel) env x
    | .ForStmt init cond post body => H.evalFor fuel (evalStatement H fuel) env init cond post body
    | .IfStmt cond body els => H.evalIf fuel (evalStatement H fuel) env cond body els
    | .EmptyStmt => some (.normal Value.None [], env)
    | .ReturnStmt results => H.evalReturn fuel (evalStatement H fuel) env results
    | .CaseClause .. | .CommClause .. | .DeferStmt .. | .GoStmt .. | .IncDecStmt ..
    | .LabeledStmt .. | .RangeStmt .. | .SelectStmt .. | .SendStmt .. | .SwitchStmt ..
    | .TypeSwitchStmt .. =>
      Errorf env "unimplemented statement: %#v" node
    | _ => Errorf env "unimplemented statement: %#v" node

/-- The method `evalStatements`: its statements are evaluated by
`evalStatement`. -/
def evalStatements (H : Handlers) (fuel : Nat) (env : Env) (list : List Stmt) : Res :=
  evalStatementsIn (evalStatement H fuel) env list

/-- The method `evalBlock`. -/
def evalBlock (H : Handlers) (fuel : Nat) (env : Env) (block : List Stmt) : Res :=
  evalBlockIn (evalStatement H fuel) env block

/-- Modelled from the spec: the call of an interpreted function is not under
src. Section 4.4: a call evaluates its arguments "before invocation";
section 4.3, Return: the result expressions are propagated "as the
multi-value result, unwinding enclosing block scopes"; section 6: "Result
packing". The parameters are bound to the arguments in a new scope of
`env`, the environment the function was declared in; the body is evaluated
as a block by `ev`; a `Return` signal ends the call, which returns the
values of the signal; any other outcome of the body is that of the call.
The caller goes on with `env`. -/
def callFunction (ev : Eval) (env : Env) (params : List String) (args : List Value)
    (body : List Stmt) : Res :=
  match defineAll none (NewEnv env) params args with
  | (.ok _, fenv) =>
    match ev fenv (.BlockStmt body) with
    | some (.abrupt (.Return vs), fenv1) =>
      some (.normal (unpackValues vs).1 (unpackValues vs).2, fenv1.Outer)
    | some (o, fenv1) => some (o, fenv1.Outer)
    | none => none
  | (.error p, _) => some (.abrupt p, env)

/-! ## Notions the properties are stated with -/

/-- The statements of `list` are evaluated one after the other from `env`
and each returns normally: the environment they leave. -/
def runAll {σ : Type} (ev : σ → Stmt → Option (Outcome × σ)) : σ → List Stmt → Option σ
  | env, [] => some env
  | env, stmt :: list =>
    match ev env stmt with
    | some (.normal _ _, env1) => runAll ev env1 list
    | _ => none

/-- An evaluator that also records, in order, every node it is called on. -/
def logged {σ α : Type} (ev : σ → α → Option (Outcome × σ)) :
    σ × List α → α → Option (Outcome × (σ × List α))
  | (env, log), node =>
    match ev env node with
    | some (o, env1) => some (o, (env1, log ++ [node]))
    | none => none

/-- The statement kinds the spec lists as unimplemented at the tree-walk
layer: switch, type-switch, select, range, defer, go, labeled, send. -/
def Stmt.unimplementedKind : Stmt → Bool
  | .SwitchStmt .. => true
  | .TypeSwitchStmt .. => true
  | .SelectStmt .. => true
  | .RangeStmt .. => true
  | .DeferStmt .. => true
  | .GoStmt .. => true
  | .LabeledStmt .. => true
  | .SendStmt .. => true
  | _ => false

/-- The statement kinds for which the type switch of `evalStatement` calls a
method of the interpreter: assignment, block, branch, declaration,
expression, for, if, return. -/
def Stmt.handled : Stmt → Bool
  | .AssignStmt .. => true
  | .BlockStmt .. => true
  | .BranchStmt .. => true
  | .DeclStmt .. => true
  | .ExprStmt .. => true
  | .ForStmt .. => true
  | .IfStmt .. => true
  | .ReturnStmt .. => true
  | _ => false

/-- An expression evaluator that leaves the environment as it found it. -/
def PureExpr (ev : Env → Expr → Res) : Prop :=
  ∀ env x o env1, ev env x = some (o, env1) → env1 = env

/-- Between `env` and `env1` the chain of scopes has the same length and
every enclosing scope defines the same names; only the innermost scope may
have other names. -/
def Frame (env env1 : Env) : Prop :=
  env1.names.tail = env.names.tail ∧ env1.names.length = env.names.length

/-- A statement evaluator all of whose calls keep the frame. -/
def FrameEval (ev : Eval) : Prop :=
  ∀ env s o env1, ev env s = some (o, env1) → Frame env env1

/-- Modelled from the spec: the methods missing from src, as the
tree-walking interpreter of sections 4.3 and 4.4 describes them. -/
def classic : Handlers where
  evalAssignments := fun fuel _ env lhs tok rhs => evalAssignments (evalExpr fuel) env lhs tok rhs
  evalBranch := fun _ _ env tok label => evalBranch env tok label
  evalDecl := fun fuel _ env decl => evalDecl (evalExpr fuel) env decl
  evalExpr := fun fuel _ env x => evalExpr fuel env x
  evalFor := fun fuel ev env init cond post body =>
    evalFor fuel (evalExpr fuel) ev env init cond post body
  evalIf := fun fuel ev env cond body els => evalIf (evalExpr fuel) ev env cond body els
  evalReturn := fun fuel _ env results => evalReturn (evalExpr fuel) env results

/-! ## Programs of the test table -/

/-- The environment after `var i, j, k int` of test for_1, with the values
the three variables hold. -/
def ijk (i j k : Int) : Env :=
  .mk [("i", .int .Int i), ("j", .int .Int j), ("k", .int .Int k)] .nil

/-- The loop body of test continue_1: `{ if i==3 {j=i; continue}; k=k+i }`. -/
def continueBody : List Stmt :=
  [ .IfStmt (.BinaryExpr (.Ident "i") .EQL (.BasicLit .INT "3"))
      [.AssignStmt [.Ident "j"] .ASSIGN [.Ident "i"], .BranchStmt .CONTINUE none] none,
    .AssignStmt [.Ident "k"] .ASSIGN [.BinaryExpr (.Ident "k") .ADD (.Ident "i")] ]

/-- The loop of tests continue_1 and continue_2, its bound the literal `n`:
`for i=1; i<=n; i=i+1 { if i==3 {j=i; continue}; k=k+i }`. -/
def continueLoop (n : String) : Stmt :=
  .ForStmt (some (.AssignStmt [.Ident "i"] .ASSIGN [.BasicLit .INT "1"]))
    (some (.BinaryExpr (.Ident "i") .LEQ (.BasicLit .INT n)))
    (some (.AssignStmt [.Ident "i"] .ASSIGN [.BinaryExpr (.Ident "i") .ADD (.BasicLit .INT "1")]))
    continueBody

/-- The loop of tests continue_3 and continue_4, whose body declares a
variable: `for i=1; i<=n; i=i+1 { var ii = i; if ii==3 {j=ii; continue}; k=k+ii }`. -/
def continueLoopVar (n : String) : Stmt :=
  .ForStmt (some (.AssignStmt [.Ident "i"] .ASSIGN [.BasicLit .INT "1"]))
    (some (.BinaryExpr (.Ident "i") .LEQ (.BasicLit .INT n)))
    (some (.AssignStmt [.Ident "i"] .ASSIGN [.BinaryExpr (.Ident "i") .ADD (.BasicLit .INT "1")]))
    [ .DeclStmt (.GenDecl .VAR [⟨["ii"], none, [.Ident "i"]⟩]),
      .IfStmt (.BinaryExpr (.Ident "ii") .EQL (.BasicLit .INT "3"))
        [.AssignStmt [.Ident "j"] .ASSIGN [.Ident "ii"], .BranchStmt .CONTINUE none] none,
      .AssignStmt [.Ident "k"] .ASSIGN [.BinaryExpr (.Ident "k") .ADD (.Ident "ii")] ]

/-- The loop of tests for_1, for_2 and for_3:
`for i=1; i<=2; i=i+1 { if i<2 {j=i} else {k=i} }`. -/
def forLoop : Stmt :=
  .ForStmt (some (.AssignStmt [.Ident "i"] .ASSIGN [.BasicLit .INT "1"]))
    (some (.BinaryExpr (.Ident "i") .LEQ (.BasicLit .INT "2")))
    (some (.AssignStmt [.Ident "i"] .ASSIGN [.BinaryExpr (.Ident "i") .ADD (.BasicLit .INT "1")]))
    [ .IfStmt (.BinaryExpr (.Ident "i") .LSS (.BasicLit .INT "2"))
        [.AssignStmt [.Ident "j"] .ASSIGN [.Ident "i"]]
        (some (.BlockStmt [.AssignStmt [.Ident "k"] .ASSIGN [.Ident "i"]])) ]

/-- The statements of test send_recv, `cx <- x; <-cx`, for the expression
`x` sent. -/
def sendRecv (x : Expr) : List Stmt :=
  [ .SendStmt (.Ident "cx") x, .ExprStmt (.UnaryExpr .ARROW (.Ident "cx")) ]

/-- The body of `test_recover` of test recover:
`defer func() { if rec { vpanic = recover() } }(); panic(panick)`, for the
call `deferred` that the defer statement holds. -/
def recoverBody (deferred : Expr) : List Stmt :=
  [ .DeferStmt deferred, .ExprStmt (.CallExpr (.Ident "panic") [.Ident "panick"]) ]

/-- The body of `twins` of test multiple_values_1: `return x, x+1`. -/
def twinsBody : List Stmt :=
  [ .ReturnStmt [.Ident "x", .BinaryExpr (.Ident "x") .ADD (.BasicLit .INT "1")] ]

/-- The integer an integer value holds. -/
def Value.asInt : Value → Option Int
  | .const n => some n
  | .int _ n => some n
  | _ => none

/-! ## all_test.go: the comparison of syntax trees -/

/-- Modelled from the spec: package ast2 is not under src. The dynamic type
of an `Ast` value, as `r.TypeOf` returns it: one of the three Bad wrappers,
`Ident`, `BasicLit`, or the wrapper `name` of any other kind of node. -/
inductive AstType
  | BadDecl | BadExpr | BadStmt | Ident | BasicLit
  | Node (name : String)
  deriving DecidableEq

/-- Modelled from the spec: package ast2 is not under src. Section 3,
SyntaxNode: a tree "read structurally (node kind, children, source
position)". A node is what `compareAst` reads of it: a Bad node has only its
positions; an identifier its name; a literal its kind and value; any other
node the name of its type, its operator (`Op()`) and its children (`Size()`,
`Get(i)`), besides its positions. -/
inductive Ast
  | BadDecl (From To : Nat)
  | BadExpr (From To : Nat)
  | BadStmt (From To : Nat)
  | Ident (NamePos : Nat) (Name : String)
  | BasicLit (ValuePos : Nat) (Kind : Token) (Value : String)
  | Node (name : String) (pos : List Nat) (op : Token) (children : List Ast)

/-- The dynamic type of a node (`r.TypeOf`). -/
def Ast.typeOf : Ast → AstType
  | .BadDecl .. => .BadDecl
  | .BadExpr .. => .BadExpr
  | .BadStmt .. => .BadStmt
  | .Ident .. => .Ident
  | .BasicLit .. => .BasicLit
  | .Node name .. => .Node name

/-- The method `Op()`. -/
def Ast.Op : Ast → Token
  | .Node _ _ op _ => op
  | _ => .ILLEGAL

/-- The children of a node: `Get(0)`, ..., `Get(Size()-1)`. -/
def Ast.children : Ast → List Ast
  | .Node _ _ _ children => children
  | _ => []

/-- The method `Size()`. -/
def Ast.Size (a : Ast) : Nat := a.children.length

mutual
/-- The method `compareAst` of all_test.go. The value is the list of the
calls of `c.fail(t, actual, expected)`, in order: each one reports a failure
to the test. A type assertion `expected.(Ident)` cannot fail where it
stands, the types being equal. -/
def compareAst : Ast → Ast → List (Ast × Ast)
  | actual, expected =>
    if actual.typeOf = expected.typeOf then
      match actual with
      | .BadDecl .. => []
      | .BadExpr .. => []
      | .BadStmt .. => []
      | .Ident _ name =>
        match expected with
        | .Ident _ name1 => if name = name1 then [] else [(actual, expected)]
        | _ => [(actual, expected)]
      | .BasicLit _ kind value =>
        match expected with
        | .BasicLit _ kind1 value1 =>
          if kind = kind1 ∧ value = value1 then [] else [(actual, expected)]
        | _ => [(actual, expected)]
      | .Node _ _ op children =>
        if op = expected.Op ∧ children.length = expected.Size then
          compareAstChildren children expected.children
        else [(actual, expected)]
    else [(actual, expected)]
/-- The loop of `compareAst` over the children:
`for i := 0; i < na; i++ { c.compareAst(t, actual.Get(i), expected.Get(i)) }`. -/
def compareAstChildren : List Ast → List Ast → List (Ast × Ast)
  | a :: as, e :: es => compareAst a e ++ compareAstChildren as es
  | _, _ => []
end

mutual
/-- The tree with every source position set to zero. -/
def Ast.erase : Ast → Ast
  | .BadDecl _ _ => .BadDecl 0 0
  | .BadExpr _ _ => .BadExpr 0 0
  | .BadStmt _ _ => .BadStmt 0 0
  | .Ident _ name => .Ident 0 name
  | .BasicLit _ kind value => .BasicLit 0 kind value
  | .Node name _ op children => .Node name [] op (eraseChildren children)
/-- The trees of a list with every source position set to zero. -/
def eraseChildren : List Ast → List Ast
  | [] => []
  | a :: as => a.erase :: eraseChildren as
end

/-! ## evalStatements and evalBlock: order and result -/

theorem evalStatementsLoop_single {σ : Type} (ev : σ → Stmt → Option (Outcome × σ))
    (ret : Value) (rets : List Value) (env : σ) (s : Stmt) :
    evalStatementsLoop ev ret rets env [s] = ev env s := by
  unfold evalStatementsLoop
  rcases h : ev env s with _ | ⟨o, e⟩
  · rfl
  · cases o <;> simp [evalStatementsLoop]

theorem evalStatementsLoop_runAll {σ : Type} (ev : σ → Stmt → Option (Outcome × σ))
    (pre : List Stmt) (sn : Stmt) :
    ∀ (ret : Value) (rets : List Value) (env env1 : σ), runAll ev env pre = some env1 →
      evalStatementsLoop ev ret rets env (pre ++ [sn]) = ev env1 sn := by
  induction pre with
  | nil =>
    intro ret rets env env1 h
    simp only [runAll, Option.some.injEq] at h
    subst h
    exact evalStatementsLoop_single ev ret rets env sn
  | cons s pre ih =>
    intro ret rets env env1 h
    simp only [runAll] at h
    rcases hs : ev env s with _ | ⟨o, e⟩
    · simp [hs] at h
    · cases o with
      | normal r rs =>
        simp only [hs] at h
        simp only [List.cons_append, evalStatementsLoop, hs]
        exact ih r rs e env1 h
      | abrupt p => simp [hs] at h

theorem evalStatementsLoop_normal {σ : Type} (ev : σ → Stmt → Option (Outcome × σ))
    (list : List Stmt) :
    ∀ (ret : Value) (rets : List Value) (env env2 : σ) (r : Value) (rs : List Value),
      evalStatementsLoop ev ret rets env list = some (.normal r rs, env2) →
      runAll ev env list = some env2 := by
  induction list with
  | nil =>
    intro ret rets env env2 r rs h
    simp only [evalStatementsLoop, Option.some.injEq, Prod.mk.injEq] at h
    simp [runAll, h.2]
  | cons s list ih =>
    intro ret rets env env2 r rs h
    simp only [evalStatementsLoop] at h
    rcases hs : ev env s with _ | ⟨o, e⟩
    · simp [hs] at h
    · cases o with
      | normal r1 rs1 =>
        simp only [hs] at h
        simp only [runAll, hs]
        exact ih r1 rs1 e env2 r rs h
      | abrupt p => simp [hs] at h

theorem runAll_logged {σ : Type} (ev : σ → Stmt → Option (Outcome × σ)) (pre : List Stmt) :
    ∀ (env env1 : σ) (log : List Stmt), runAll ev env pre = some env1 →
      runAll (logged ev) (env, log) pre = some (env1, log ++ pre) := by
  induction pre with
  | nil =>
    intro env env1 log h
    simp only [runAll, Option.some.injEq] at h
    simp [runAll, h]
  | cons s pre ih =>
    intro env env1 log h
    simp only [runAll] at h
    rcases hs : ev env s with _ | ⟨o, e⟩
    · simp [hs] at h
    · cases o with
      | normal r rs =>
        simp only [hs] at h
        simp only [runAll, logged, hs]
        rw [ih e env1 (log ++ [s]) h]
        simp
      | abrupt p => simp [hs] at h

/-- C1, as amended: when the statements before the last return normally,
`evalStatements` returns exactly what evaluating the last statement returns,
in the environment the earlier ones left (their own results are dropped);
the statements the evaluator is called on are, in order and once each, those
of the list; and a block with that list, evaluated by `evalBlock` from an
environment whose child the list runs in, returns the same, the caller
going on with its own environment. -/
theorem evalStatements_returns_last (H : Handlers) (fuel : Nat) (env env1 : Env)
    (pre : List Stmt) (sn : Stmt)
    (h : runAll (evalStatement H fuel) env pre = some env1) :
    evalStatements H fuel env (pre ++ [sn]) = evalStatement H fuel env1 sn
    ∧ evalStatementsIn (logged (evalStatement H fuel)) (env, []) (pre ++ [sn])
        = Option.map (fun r => (r.1, (r.2, pre ++ [sn]))) (evalStatement H fuel env1 sn)
    ∧ ∀ outer, env = NewEnv outer →
        evalBlock H fuel outer (pre ++ [sn]) = leave (evalStatement H fuel env1 sn) := by
  refine ⟨?_, ?_, ?_⟩
  · exact evalStatementsLoop_runAll _ pre sn _ _ env env1 h
  · have hl := runAll_logged (evalStatement H fuel) pre env env1 [] h
    unfold evalStatementsIn
    rw [evalStatementsLoop_runAll (logged (evalStatement H fuel)) pre sn _ _ _ _ hl]
    simp only [logged, List.nil_append]
    cases evalStatement H fuel env1 sn <;> rfl
  · intro outer ho
    subst ho
    show leave (evalStatementsLoop (evalStatement H fuel) Value.None [] (NewEnv outer)
      (pre ++ [sn])) = leave (evalStatement H fuel env1 sn)
    rw [evalStatementsLoop_runAll _ pre sn _ _ (NewEnv outer) env1 h]

/-- Witness of C1: the block `{ var v = v; v; }` evaluated where `v` is
already defined: the declaration runs in the child environment, the block
returns the `(None, nil)` of its last statement, and the caller's
environment is as it was. -/
theorem evalStatements_returns_last_witness :
    runAll (evalStatement classic 1) (NewEnv (Env.mk [("v", .int .Uint32 7)] .nil))
        [.DeclStmt (.GenDecl .VAR [⟨["v"], none, [.Ident "v"]⟩]), .ExprStmt (.Ident "v")]
      = some (Env.mk [("v", .int .Uint32 7)] (Env.mk [("v", .int .Uint32 7)] .nil))
    ∧ evalStatements classic 1 (NewEnv (Env.mk [("v", .int .Uint32 7)] .nil))
        ([.DeclStmt (.GenDecl .VAR [⟨["v"], none, [.Ident "v"]⟩]), .ExprStmt (.Ident "v")]
          ++ [.EmptyStmt])
      = some (.normal .None [],
          Env.mk [("v", .int .Uint32 7)] (Env.mk [("v", .int .Uint32 7)] .nil))
    ∧ evalBlock classic 1 (Env.mk [("v", .int .Uint32 7)] .nil)
        ([.DeclStmt (.GenDecl .VAR [⟨["v"], none, [.Ident "v"]⟩]), .ExprStmt (.Ident "v")]
          ++ [.EmptyStmt])
      = some (.normal .None [], Env.mk [("v", .int .Uint32 7)] .nil) :=
  ⟨rfl,
    (evalStatements_returns_last classic 1 (NewEnv (Env.mk [("v", .int .Uint32 7)] .nil))
      (Env.mk [("v", .int .Uint32 7)] (Env.mk [("v", .int .Uint32 7)] .nil))
      [.DeclStmt (.GenDecl .VAR [⟨["v"], none, [.Ident "v"]⟩]), .ExprStmt (.Ident "v")]
      .EmptyStmt rfl).1,
    (evalStatements_returns_last classic 1 (NewEnv (Env.mk [("v", .int .Uint32 7)] .nil))
      (Env.mk [("v", .int .Uint32 7)] (Env.mk [("v", .int .Uint32 7)] .nil))
      [.DeclStmt (.GenDecl .VAR [⟨["v"], none, [.Ident "v"]⟩]), .ExprStmt (.Ident "v")]
      .EmptyStmt rfl).2.2 (Env.mk [("v", .int .Uint32 7)] .nil) rfl⟩

/-- Counterexample to C1 as stated: in the list `x; i++; y` the second
statement panics ("unimplemented statement"), so `evalStatements` stops
there: the evaluator is called on `x` and `i++` only, never on `y`, and what
is returned is the panic, not the pair `(3, nil)` that evaluating `y`
produces. -/
theorem evalStatements_stops_at_panic :
    evalStatements classic 1
        (Env.mk [("x", .int .Int 1), ("i", .int .Int 2), ("y", .int .Int 3)] .nil)
        [.ExprStmt (.Ident "x"), .IncDecStmt (.Ident "i") .INC, .ExprStmt (.Ident "y")]
      = some (.abrupt (.RuntimeError "unimplemented statement: %#v"
            (.IncDecStmt (.Ident "i") .INC)),
          Env.mk [("x", .int .Int 1), ("i", .int .Int 2), ("y", .int .Int 3)] .nil)
    ∧ evalStatement classic 1
        (Env.mk [("x", .int .Int 1), ("i", .int .Int 2), ("y", .int .Int 3)] .nil)
        (.ExprStmt (.Ident "y"))
      = some (.normal (.int .Int 3) [],
          Env.mk [("x", .int .Int 1), ("i", .int .Int 2), ("y", .int .Int 3)] .nil)
    ∧ evalStatementsIn (logged (evalStatement classic 1))
        (Env.mk [("x", .int .Int 1), ("i", .int .Int 2), ("y", .int .Int 3)] .nil, [])
        [.ExprStmt (.Ident "x"), .IncDecStmt (.Ident "i") .INC, .ExprStmt (.Ident "y")]
      = some (.abrupt (.RuntimeError "unimplemented statement: %#v"
            (.IncDecStmt (.Ident "i") .INC)),
          (Env.mk [("x", .int .Int 1), ("i", .int .Int 2), ("y", .int .Int 3)] .nil,
            [.ExprStmt (.Ident "x"), .IncDecStmt (.Ident "i") .INC]))
    ∧ evalStatements classic 1
        (Env.mk [("x", .int .Int 1), ("i", .int .Int 2), ("y", .int .Int 3)] .nil)
        [.ExprStmt (.Ident "x"), .IncDecStmt (.Ident "i") .INC, .ExprStmt (.Ident "y")]
      ≠ evalStatement classic 1
        (Env.mk [("x", .int .Int 1), ("i", .int .Int 2), ("y", .int .Int 3)] .nil)
        (.ExprStmt (.Ident "y")) := by
  refine ⟨rfl, rfl, rfl, ?_⟩
  intro h
  have h1 : evalStatements classic 1
      (Env.mk [("x", .int .Int 1), ("i", .int .Int 2), ("y", .int .Int 3)] .nil)
      [.ExprStmt (.Ident "x"), .IncDecStmt (.Ident "i") .INC, .ExprStmt (.Ident "y")]
    = some (.abrupt (.RuntimeError "unimplemented statement: %#v"
          (.IncDecStmt (.Ident "i") .INC)),
        Env.mk [("x", .int .Int 1), ("i", .int .Int 2), ("y", .int .Int 3)] .nil) := rfl
  have h2 : evalStatement classic 1
      (Env.mk [("x", .int .Int 1), ("i", .int .Int 2), ("y", .int .Int 3)] .nil)
      (.ExprStmt (.Ident "y"))
    = some (.normal (.int .Int 3) [],
        Env.mk [("x", .int .Int 1), ("i", .int .Int 2), ("y", .int .Int 3)] .nil) := rfl
  rw [h1, h2] at h
  simp at h

/-! ## evalStatement: the unimplemented kinds -/

/-- C2: on a switch, type-switch, select, range, defer, go, labeled or send
statement, `evalStatement` panics with the error "unimplemented statement"
that carries the statement; whatever the other methods of the interpreter
are, none is called, and the environment is the one it was given. -/
theorem evalStatement_unimplemented (H : Handlers) (fuel : Nat) (env : Env) (node : Stmt)
    (h : node.unimplementedKind = true) :
    evalStatement H (fuel + 1) env node
      = some (.abrupt (.RuntimeError "unimplemented statement: %#v" node), env) := by
  cases node <;> first | rfl | simp [Stmt.unimplementedKind] at h

/-- Witness of C2 on the send statement `cx <- v`. -/
theorem evalStatement_unimplemented_witness :
    (Stmt.SendStmt (.Ident "cx") (.Ident "v")).unimplementedKind = true
    ∧ evalStatement classic 1 Env.nil (Stmt.SendStmt (.Ident "cx") (.Ident "v"))
      = some (.abrupt (.RuntimeError "unimplemented statement: %#v"
          (Stmt.SendStmt (.Ident "cx") (.Ident "v"))), Env.nil) :=
  ⟨rfl, evalStatement_unimplemented classic 0 Env.nil _ rfl⟩

/-! ## Return -/

theorem evalStatementsLoop_abrupt {σ : Type} (ev : σ → Stmt → Option (Outcome × σ))
    (pre : List Stmt) (s : Stmt) (post : List Stmt) (p : Panic) :
    ∀ (ret : Value) (rets : List Value) (env env1 env2 : σ), runAll ev env pre = some env1 →
      ev env1 s = some (.abrupt p, env2) →
      evalStatementsLoop ev ret rets env (pre ++ s :: post) = some (.abrupt p, env2) := by
  induction pre with
  | nil =>
    intro ret rets env env1 env2 h hs
    simp only [runAll, Option.some.injEq] at h
    subst h
    simp [evalStatementsLoop, hs]
  | cons t pre ih =>
    intro ret rets env env1 env2 h hs
    simp only [runAll] at h
    rcases ht : ev env t with _ | ⟨o, e⟩
    · simp [ht] at h
    · cases o with
      | normal r rs =>
        simp only [ht] at h
        simp only [List.cons_append, evalStatementsLoop, ht]
        exact ih r rs e env1 env2 h hs
      | abrupt q => simp [ht] at h

/-- C3, as amended: in a statement list whose statements before a `return`
return normally and whose result expressions evaluate to the values `vs`, in
order, evaluating the list ends with the `Return` signal that carries `vs`;
the statements after the `return` have no part in the result, and the
evaluator is called on the statements up to the `return` only; and the call
of a function with that list as its body returns `vs` as its result, the
first value and the values. -/
theorem return_propagates (fuel : Nat) (env env1 env2 : Env) (pre post : List Stmt)
    (results : List Expr) (vs : List Value)
    (hpre : runAll (evalStatement classic (fuel + 1)) env pre = some env1)
    (hres : evalExprsIn (evalExpr fuel) env1 results = some (.ok vs, env2)) :
    evalStatements classic (fuel + 1) env (pre ++ Stmt.ReturnStmt results :: post)
      = some (.abrupt (.Return vs), env2)
    ∧ evalStatementsIn (logged (evalStatement classic (fuel + 1))) (env, [])
        (pre ++ Stmt.ReturnStmt results :: post)
      = some (.abrupt (.Return vs), (env2, pre ++ [Stmt.ReturnStmt results]))
    ∧ ∀ outer params args ws fenv,
        defineAll none (NewEnv outer) params args = (.ok ws, fenv) → env = NewEnv fenv →
        callFunction (evalStatement classic (fuel + 2)) outer params args
            (pre ++ Stmt.ReturnStmt results :: post)
          = some (.normal (unpackValues vs).1 (unpackValues vs).2, env2.Outer.Outer) := by
  have hret : evalStatement classic (fuel + 1) env1 (Stmt.ReturnStmt results)
      = some (.abrupt (.Return vs), env2) := by
    simp [evalStatement, classic, evalReturn, hres]
  have hlist : evalStatements classic (fuel + 1) env (pre ++ Stmt.ReturnStmt results :: post)
      = some (.abrupt (.Return vs), env2) :=
    evalStatementsLoop_abrupt _ pre _ post _ _ _ env env1 env2 hpre hret
  refine ⟨hlist, ?_, ?_⟩
  · have hl := runAll_logged (evalStatement classic (fuel + 1)) pre env env1 [] hpre
    refine evalStatementsLoop_abrupt _ pre _ post _ _ _ _ _ _ hl ?_
    simp [logged, hret]
  · intro outer params args ws fenv hdef henv
    subst henv
    have hblock : evalStatement classic (fuel + 2) fenv
        (.BlockStmt (pre ++ Stmt.ReturnStmt results :: post))
        = leave (evalStatements classic (fuel + 1) (NewEnv fenv)
            (pre ++ Stmt.ReturnStmt results :: post)) := rfl
    simp only [callFunction, hdef, hblock, hlist, leave]

/-- Witness of C3: the call `twins(17)` of test multiple_values_1, its body
`return x, x+1` followed by a statement `k = 5` that is never evaluated. -/
theorem return_propagates_witness :
    runAll (evalStatement classic 1)
        (NewEnv (Env.mk [("x", .int .Int 17)] (Env.mk [("k", .int .Int 0)] .nil))) []
      = some (NewEnv (Env.mk [("x", .int .Int 17)] (Env.mk [("k", .int .Int 0)] .nil)))
    ∧ evalExprsIn (evalExpr 0)
        (NewEnv (Env.mk [("x", .int .Int 17)] (Env.mk [("k", .int .Int 0)] .nil)))
        [.Ident "x", .BinaryExpr (.Ident "x") .ADD (.BasicLit .INT "1")]
      = some (.ok [.int .Int 17, .int .Int 18],
          NewEnv (Env.mk [("x", .int .Int 17)] (Env.mk [("k", .int .Int 0)] .nil)))
    ∧ defineAll none (NewEnv (Env.mk [("k", .int .Int 0)] .nil)) ["x"] [.int .Int 17]
      = (.ok [.int .Int 17], Env.mk [("x", .int .Int 17)] (Env.mk [("k", .int .Int 0)] .nil))
    ∧ callFunction (evalStatement classic 2) (Env.mk [("k", .int .Int 0)] .nil) ["x"]
        [.int .Int 17]
        ([] ++ Stmt.ReturnStmt [.Ident "x", .BinaryExpr (.Ident "x") .ADD (.BasicLit .INT "1")]
          :: [Stmt.AssignStmt [.Ident "k"] .ASSIGN [.BasicLit .INT "5"]])
      = some (.normal (.int .Int 17) [.int .Int 17, .int .Int 18],
          Env.mk [("k", .int .Int 0)] .nil) :=
  ⟨rfl, rfl, rfl,
    (return_propagates 0
      (NewEnv (Env.mk [("x", .int .Int 17)] (Env.mk [("k", .int .Int 0)] .nil)))
      (NewEnv (Env.mk [("x", .int .Int 17)] (Env.mk [("k", .int .Int 0)] .nil)))
      (NewEnv (Env.mk [("x", .int .Int 17)] (Env.mk [("k", .int .Int 0)] .nil)))
      [] [Stmt.AssignStmt [.Ident "k"] .ASSIGN [.BasicLit .INT "5"]]
      [.Ident "x", .BinaryExpr (.Ident "x") .ADD (.BasicLit .INT "1")]
      [.int .Int 17, .int .Int 18] rfl rfl).2.2
      (Env.mk [("k", .int .Int 0)] .nil) ["x"] [.int .Int 17] [.int .Int 17]
      (Env.mk [("x", .int .Int 17)] (Env.mk [("k", .int .Int 0)] .nil)) rfl rfl⟩

/-- Counterexample to C3 as stated: the list `i++; return i` contains a
return, but the statement before it panics ("unimplemented statement"): the
list ends with that panic and so does the call of a function with this body,
although the return by itself would hand back the value of `i`. -/
theorem return_not_reached :
    evalStatements classic 1 (Env.mk [("i", .int .Int 2)] .nil)
        [.IncDecStmt (.Ident "i") .INC, .ReturnStmt [.Ident "i"]]
      = some (.abrupt (.RuntimeError "unimplemented statement: %#v"
            (.IncDecStmt (.Ident "i") .INC)), Env.mk [("i", .int .Int 2)] .nil)
    ∧ evalStatement classic 1 (Env.mk [("i", .int .Int 2)] .nil) (.ReturnStmt [.Ident "i"])
      = some (.abrupt (.Return [.int .Int 2]), Env.mk [("i", .int .Int 2)] .nil)
    ∧ callFunction (evalStatement classic 2) Env.nil ["i"] [.int .Int 2]
        [.IncDecStmt (.Ident "i") .INC, .ReturnStmt [.Ident "i"]]
      = some (.abrupt (.RuntimeError "unimplemented statement: %#v"
            (.IncDecStmt (.Ident "i") .INC)), Env.nil) :=
  ⟨rfl, rfl, rfl⟩

/-! ## Expressions leave the environment alone -/

mutual
theorem quasiquoteIn_env (ev : Env → Expr → Res) (hev : PureExpr ev) :
    ∀ (x : Expr) (depth : Nat) (env env1 : Env) (r : Except Panic Expr),
      quasiquoteIn ev depth env x = some (r, env1) → env1 = env
  | .BadExpr, depth, env, env1, r, h => by
    simp only [quasiquoteIn, Option.some.injEq, Prod.mk.injEq] at h; exact h.2.symm
  | .Ident _, depth, env, env1, r, h => by
    simp only [quasiquoteIn, Option.some.injEq, Prod.mk.injEq] at h; exact h.2.symm
  | .BasicLit _ _, depth, env, env1, r, h => by
    simp only [quasiquoteIn, Option.some.injEq, Prod.mk.injEq] at h; exact h.2.symm
  | .ParenExpr x, depth, env, env1, r, h => by
    simp only [quasiquoteIn] at h
    rcases hx : quasiquoteIn ev depth env x with _ | ⟨rx, e⟩
    · simp [hx] at h
    · have := quasiquoteIn_env ev hev x depth env e rx hx
      subst this
      cases rx <;> simp [hx] at h <;> exact h.2.symm
  | .UnaryExpr op x, depth, env, env1, r, h => by
    simp only [quasiquoteIn] at h
    have rec1 := fun d => quasiquoteIn_env ev hev x d env
    split at h
    · split at h
      · rcases hx : ev env x with _ | ⟨o, e⟩
        · simp [hx] at h
        · have := hev env x o e hx
          subst this
          cases o with
          | normal v rs =>
            simp only [hx] at h
            split at h <;> simp at h <;> exact h.2.symm
          | abrupt p => simp [hx] at h; exact h.2.symm
      · rcases hx : quasiquoteIn ev (depth - 1) env x with _ | ⟨rx, e⟩
        · simp [hx] at h
        · have := rec1 _ e rx hx
          subst this
          cases rx <;> simp [hx] at h <;> exact h.2.symm
    · rcases hx : quasiquoteIn ev (depth + 1) env x with _ | ⟨rx, e⟩
      · simp [hx] at h
      · have := rec1 _ e rx hx
        subst this
        cases rx <;> simp [hx] at h <;> exact h.2.symm
    · rcases hx : quasiquoteIn ev depth env x with _ | ⟨rx, e⟩
      · simp [hx] at h
      · have := rec1 _ e rx hx
        subst this
        cases rx <;> simp [hx] at h <;> exact h.2.symm
  | .BinaryExpr x op y, depth, env, env1, r, h => by
    simp only [quasiquoteIn] at h
    rcases hx : quasiquoteIn ev depth env x with _ | ⟨rx, e⟩
    · simp [hx] at h
    · have := quasiquoteIn_env ev hev x depth env e rx hx
      subst this
      cases rx with
      | error p => simp [hx] at h; exact h.2.symm
      | ok x1 =>
        simp only [hx] at h
        rcases hy : quasiquoteIn ev depth e y with _ | ⟨ry, e2⟩
        · simp [hy] at h
        · have := quasiquoteIn_env ev hev y depth e e2 ry hy
          subst this
          cases ry <;> simp [hy] at h <;> exact h.2.symm
  | .CallExpr f args, depth, env, env1, r, h => by
    simp only [quasiquoteIn] at h
    rcases hx : quasiquoteIn ev depth env f with _ | ⟨rx, e⟩
    · simp [hx] at h
    · have := quasiquoteIn_env ev hev f depth env e rx hx
      subst this
      cases rx with
      | error p => simp [hx] at h; exact h.2.symm
      | ok x1 =>
        simp only [hx] at h
        rcases hy : quasiquoteListIn ev depth e args with _ | ⟨ry, e2⟩
        · simp [hy] at h
        · have := quasiquoteListIn_env ev hev args depth e e2 ry hy
          subst this
          cases ry <;> simp [hy] at h <;> exact h.2.symm
theorem quasiquoteListIn_env (ev : Env → Expr → Res) (hev : PureExpr ev) :
    ∀ (xs : List Expr) (depth : Nat) (env env1 : Env) (r : Except Panic (List Expr)),
      quasiquoteListIn ev depth env xs = some (r, env1) → env1 = env
  | [], depth, env, env1, r, h => by
    simp only [quasiquoteListIn, Option.some.injEq, Prod.mk.injEq] at h; exact h.2.symm
  | x :: xs, depth, env, env1, r, h => by
    simp only [quasiquoteListIn] at h
    rcases hx : quasiquoteIn ev depth env x with _ | ⟨rx, e⟩
    · simp [hx] at h
    · have := quasiquoteIn_env ev hev x depth env e rx hx
      subst this
      cases rx with
      | error p => simp [hx] at h; exact h.2.symm
      | ok x1 =>
        simp only [hx] at h
        rcases hy : quasiquoteListIn ev depth e xs with _ | ⟨ry, e2⟩
        · simp [hy] at h
        · have := quasiquoteListIn_env ev hev xs depth e e2 ry hy
          subst this
          cases ry <;> simp [hy] at h <;> exact h.2.symm
end

theorem ofExcept_env {σ : Type} (env env1 : σ) (r : Except Panic Value) (o : Outcome)
    (h : ofExcept env r = some (o, env1)) : env1 = env := by
  cases r <;> simp [ofExcept] at h <;> exact h.2.symm

theorem fault_env {σ : Type} (env env1 : σ) (k : ErrorKind) (d : String) (o : Outcome)
    (h : fault env k d = some (o, env1)) : env1 = env := by
  simp [fault] at h; exact h.2.symm

theorem evalExprIn_env (unq : Env → Expr → Res) (hunq : PureExpr unq) :
    ∀ (x : Expr) (env env1 : Env) (o : Outcome),
      evalExprIn unq env x = some (o, env1) → env1 = env
  | .BadExpr, env, env1, o, h => by
    simp only [evalExprIn] at h; exact fault_env _ _ _ _ _ h
  | .Ident _, env, env1, o, h => by
    simp only [evalExprIn] at h
    split at h
    · simp at h; exact h.2.symm
    · exact fault_env _ _ _ _ _ h
  | .BasicLit _ _, env, env1, o, h => by
    simp only [evalExprIn] at h
    split at h
    · split at h
      · simp at h; exact h.2.symm
      · exact fault_env _ _ _ _ _ h
    · simp at h; exact h.2.symm
    · exact fault_env _ _ _ _ _ h
  | .ParenExpr x, env, env1, o, h => by
    simp only [evalExprIn] at h
    exact evalExprIn_env unq hunq x env env1 o h
  | .UnaryExpr op x, env, env1, o, h => by
    simp only [evalExprIn] at h
    split at h
    · simp at h; exact h.2.symm
    · rcases hq : quasiquoteIn unq 1 env x with _ | ⟨r, e⟩
      · simp [hq] at h
      · have := quasiquoteIn_env unq hunq x 1 env e r hq
        subst this
        cases r <;> simp [hq] at h <;> exact h.2.symm
    · exact fault_env _ _ _ _ _ h
    · exact fault_env _ _ _ _ _ h
    · rcases hx : evalExprIn unq env x with _ | ⟨ox, e⟩
      · simp [hx] at h
      · have := evalExprIn_env unq hunq x env e ox hx
        subst this
        cases ox with
        | normal v rs => simp only [hx] at h; exact ofExcept_env _ _ _ _ h
        | abrupt p => simp [hx] at h; exact h.2.symm
  | .BinaryExpr x op y, env, env1, o, h => by
    simp only [evalExprIn] at h
    rcases hx : evalExprIn unq env x with _ | ⟨ox, e⟩
    · simp [hx] at h
    · have := evalExprIn_env unq hunq x env e ox hx
      subst this
      cases ox with
      | abrupt p => simp [hx] at h; exact h.2.symm
      | normal xv rs =>
        simp only [hx] at h
        split at h
        · simp at h; exact h.2.symm
        · simp at h; exact h.2.symm
        · rcases hy : evalExprIn unq e y with _ | ⟨oy, e2⟩
          · simp [hy] at h
          · have := evalExprIn_env unq hunq y e e2 oy hy
            subst this
            cases oy with
            | normal v rs => simp only [hy] at h; exact ofExcept_env _ _ _ _ h
            | abrupt p => simp [hy] at h; exact h.2.symm
  | .CallExpr f args, env, env1, o, h => by
    unfold evalExprIn at h
    split at h
    · rename_i name arg
      split at h
      · rcases hx : evalExprIn unq env arg with _ | ⟨ox, e⟩
        · simp [hx] at h
        · have := evalExprIn_env unq hunq arg env e ox hx
          subst this
          cases ox with
          | normal v rs => simp only [hx] at h; exact ofExcept_env _ _ _ _ h
          | abrupt p => simp [hx] at h; exact h.2.symm
      · exact fault_env _ _ _ _ _ h
    · exact fault_env _ _ _ _ _ h

theorem evalExpr_env : ∀ (fuel : Nat), PureExpr (evalExpr fuel)
  | 0 => fun env x o env1 h =>
    evalExprIn_env _ (fun _ _ _ _ h => by simp at h) x env env1 o h
  | fuel + 1 => fun env x o env1 h =>
    evalExprIn_env _ (evalExpr_env fuel) x env env1 o h

theorem evalExprsIn_env (ev : Env → Expr → Res) (hev : PureExpr ev) :
    ∀ (xs : List Expr) (env env1 : Env) (r : Except Panic (List Value)),
      evalExprsIn ev env xs = some (r, env1) → env1 = env := by
  intro xs
  induction xs with
  | nil => intro env env1 r h; simp [evalExprsIn] at h; exact h.2.symm
  | cons x xs ih =>
    intro env env1 r h
    simp only [evalExprsIn] at h
    rcases hx : ev env x with _ | ⟨ox, e⟩
    · simp [hx] at h
    · have := hev env x ox e hx
      subst this
      cases ox with
      | abrupt p => simp [hx] at h; exact h.2.symm
      | normal v rs =>
        simp only [hx] at h
        rcases hy : evalExprsIn ev e xs with _ | ⟨ry, e2⟩
        · simp [hy] at h
        · have := ih e e2 ry hy
          subst this
          cases ry <;> simp [hy] at h <;> exact h.2.symm

/-! ## Statements keep the frame -/

theorem Frame.refl (env : Env) : Frame env env := ⟨rfl, rfl⟩

theorem Frame.trans {a b c : Env} (h1 : Frame a b) (h2 : Frame b c) : Frame a c :=
  ⟨h2.1.trans h1.1, h2.2.trans h1.2⟩

theorem Frame.of_names {a b : Env} (h : b.names = a.names) : Frame a b := by
  simp [Frame, h]

theorem setBind_fst (name : String) (v : Value) (binds : List (String × Value)) :
    (setBind name v binds).map Prod.fst = binds.map Prod.fst := by
  induction binds with
  | nil => rfl
  | cons b rest ih =>
    obtain ⟨n, w⟩ := b
    simp only [setBind]
    split <;> simp [ih]

theorem Env.assign_names (name : String) (v : Value) :
    ∀ (env env1 : Env), env.assign name v = .ok env1 → env1.names = env.names := by
  intro env
  induction env with
  | nil => intro env1 h; simp [Env.assign] at h
  | mk binds outer ih =>
    intro env1 h
    simp only [Env.assign] at h
    split at h
    · split at h
      · simp only [Except.ok.injEq] at h
        subst h
        simp [Env.names, setBind_fst]
      · simp at h
    · rcases ho : outer.assign name v with p | outer1
      · simp [ho] at h
      · simp only [ho, Except.ok.injEq] at h
        subst h
        simp [Env.names, ih outer1 ho]

theorem Env.define_frame (name : String) (v : Value) (env env1 : Env)
    (h : env.define name v = .ok env1) : Frame env env1 := by
  cases env with
  | nil => simp [Env.define] at h
  | mk binds outer =>
    simp only [Env.define] at h
    split at h
    · simp at h
    · simp only [Except.ok.injEq] at h
      subst h
      simp [Frame, Env.names]

theorem placeOne_frame (env env1 : Env) (lhs : Expr) (tok : Token) (v w : Value)
    (h : placeOne env lhs tok v = .ok (w, env1)) : Frame env env1 := by
  unfold placeOne at h
  split at h
  · split at h
    · split at h
      · rename_i e1 he
        simp only [Except.ok.injEq, Prod.mk.injEq] at h
        obtain ⟨-, rfl⟩ := h
        exact Env.define_frame _ _ _ _ he
      · simp at h
    · split at h
      · rename_i e1 he
        simp only [Except.ok.injEq, Prod.mk.injEq] at h
        obtain ⟨-, rfl⟩ := h
        exact Frame.of_names (Env.assign_names _ _ _ _ he)
      · simp at h
    · split at h
      · split at h
        · split at h
          · split at h
            · rename_i e1 he
              simp only [Except.ok.injEq, Prod.mk.injEq] at h
              obtain ⟨-, rfl⟩ := h
              exact Frame.of_names (Env.assign_names _ _ _ _ he)
            · simp at h
          · simp at h
        · simp at h
      · simp at h
  · simp at h

theorem placeAll_frame (tok : Token) :
    ∀ (lhs : List Expr) (vs : List Value) (env env1 : Env) (r : Except Panic (List Value)),
      placeAll tok env lhs vs = (r, env1) → Frame env env1 := by
  intro lhs
  induction lhs with
  | nil =>
    intro vs env env1 r h
    cases vs <;> simp [placeAll] at h <;> exact Frame.of_names (by rw [h.2])
  | cons l ls ih =>
    intro vs env env1 r h
    cases vs with
    | nil => simp [placeAll] at h; exact Frame.of_names (by rw [h.2])
    | cons v vs =>
      simp only [placeAll] at h
      rcases h1 : placeOne env l tok v with p | ⟨w, e⟩
      · simp [h1] at h; exact Frame.of_names (by rw [h.2])
      · have f1 := placeOne_frame _ _ _ _ _ _ h1
        simp only [h1] at h
        rcases h2 : placeAll tok e ls vs with ⟨r2, e2⟩
        have f2 := ih vs e e2 r2 h2
        cases r2 <;> simp [h2] at h <;> obtain ⟨-, rfl⟩ := h <;> exact f1.trans f2

theorem evalAssignments_frame (ev : Env → Expr → Res) (hev : PureExpr ev) (env env1 : Env)
    (lhs : List Expr) (tok : Token) (rhs : List Expr) (o : Outcome)
    (h : evalAssignments ev env lhs tok rhs = some (o, env1)) : Frame env env1 := by
  unfold evalAssignments at h
  rcases h1 : evalExprsIn ev env rhs with _ | ⟨r, e⟩
  · simp [h1] at h
  · have := evalExprsIn_env ev hev rhs env e r h1
    subst this
    cases r with
    | error p => simp [h1] at h; exact Frame.of_names (by rw [h.2])
    | ok vs =>
      simp only [h1] at h
      rcases h2 : placeAll tok e lhs vs with ⟨r2, e2⟩
      have f2 := placeAll_frame tok lhs vs e e2 r2 h2
      cases r2 <;> simp [h2] at h <;> obtain ⟨-, rfl⟩ := h <;> exact f2

theorem defineAll_frame (typ : Option Expr) :
    ∀ (ns : List String) (vs : List Value) (env env1 : Env) (r : Except Panic (List Value)),
      defineAll typ env ns vs = (r, env1) → Frame env env1 := by
  intro ns
  induction ns with
  | nil =>
    intro vs env env1 r h
    cases vs <;> simp [defineAll] at h <;> exact Frame.of_names (by rw [h.2])
  | cons n ns ih =>
    intro vs env env1 r h
    cases vs with
    | nil => simp [defineAll] at h; exact Frame.of_names (by rw [h.2])
    | cons v vs =>
      simp only [defineAll] at h
      split at h
      · rename_i w hw
        split at h
        · rename_i e he
          have f1 := Env.define_frame _ _ _ _ he
          rcases h2 : defineAll typ e ns vs with ⟨r2, e2⟩
          have f2 := ih vs e e2 r2 h2
          cases r2 <;> simp [h2] at h <;> obtain ⟨-, rfl⟩ := h <;> exact f1.trans f2
        · simp at h; exact Frame.of_names (by rw [h.2])
      · simp at h; exact Frame.of_names (by rw [h.2])

theorem evalValueSpec_frame (ev : Env → Expr → Res) (hev : PureExpr ev) (env env1 : Env)
    (spec : ValueSpec) (o : Outcome)
    (h : evalValueSpec ev env spec = some (o, env1)) : Frame env env1 := by
  unfold evalValueSpec at h
  split at h
  · split at h
    · split at h
      · rename_i z hz
        rcases h2 : defineAll none env spec.Names (List.replicate spec.Names.length z) with ⟨r2, e2⟩
        have f2 := defineAll_frame none _ _ env e2 r2 h2
        cases r2 <;> simp [h2] at h <;> obtain ⟨-, rfl⟩ := h <;> exact f2
      · exact Frame.of_names (by rw [fault_env _ _ _ _ _ h])
    · exact Frame.of_names (by rw [fault_env _ _ _ _ _ h])
  · rcases h1 : evalExprsIn ev env spec.Values with _ | ⟨r, e⟩
    · simp [h1] at h
    · have := evalExprsIn_env ev hev _ env e r h1
      subst this
      cases r with
      | error p => simp [h1] at h; exact Frame.of_names (by rw [h.2])
      | ok vs =>
        simp only [h1] at h
        rcases h2 : defineAll spec.Typ e spec.Names vs with ⟨r2, e2⟩
        have f2 := defineAll_frame spec.Typ _ _ e e2 r2 h2
        cases r2 <;> simp [h2] at h <;> obtain ⟨-, rfl⟩ := h <;> exact f2

theorem evalValueSpecs_frame (ev : Env → Expr → Res) (hev : PureExpr ev) :
    ∀ (specs : List ValueSpec) (ret : Value) (rets : List Value) (env env1 : Env) (o : Outcome),
      evalValueSpecs ev ret rets env specs = some (o, env1) → Frame env env1 := by
  intro specs
  induction specs with
  | nil => intro ret rets env env1 o h; simp [evalValueSpecs] at h; exact Frame.of_names (by rw [h.2])
  | cons spec specs ih =>
    intro ret rets env env1 o h
    simp only [evalValueSpecs] at h
    rcases h1 : evalValueSpec ev env spec with _ | ⟨o1, e⟩
    · simp [h1] at h
    · have f1 := evalValueSpec_frame ev hev env e spec o1 h1
      cases o1 with
      | normal r rs => simp only [h1] at h; exact f1.trans (ih r rs e env1 o h)
      | abrupt p => simp [h1] at h; obtain ⟨-, rfl⟩ := h; exact f1

theorem evalDecl_frame (ev : Env → Expr → Res) (hev : PureExpr ev) (env env1 : Env)
    (decl : Decl) (o : Outcome)
    (h : evalDecl ev env decl = some (o, env1)) : Frame env env1 := by
  unfold evalDecl at h
  split at h
  · exact evalValueSpecs_frame ev hev _ _ _ _ _ _ h
  · exact Frame.of_names (by rw [fault_env _ _ _ _ _ h])
  · exact Frame.of_names (by rw [fault_env _ _ _ _ _ h])

theorem evalBranch_env (env env1 : Env) (tok : Token) (label : Option String) (o : Outcome)
    (h : evalBranch env tok label = some (o, env1)) : env1 = env := by
  unfold evalBranch at h
  split at h <;> first | exact fault_env _ _ _ _ _ h | (simp at h; exact h.2.symm)

theorem evalReturn_env (ev : Env → Expr → Res) (hev : PureExpr ev) (env env1 : Env)
    (results : List Expr) (o : Outcome)
    (h : evalReturn ev env results = some (o, env1)) : env1 = env := by
  unfold evalReturn at h
  rcases h1 : evalExprsIn ev env results with _ | ⟨r, e⟩
  · simp [h1] at h
  · have := evalExprsIn_env ev hev _ env e r h1
    subst this
    cases r <;> simp [h1] at h <;> exact h.2.symm

theorem Env.Outer_names (env : Env) : env.Outer.names = env.names.tail := by
  cases env <;> rfl

theorem evalStatementsLoop_frame (ev : Eval) (hev : FrameEval ev) :
    ∀ (list : List Stmt) (ret : Value) (rets : List Value) (env env1 : Env) (o : Outcome),
      evalStatementsLoop ev ret rets env list = some (o, env1) → Frame env env1 := by
  intro list
  induction list with
  | nil =>
    intro ret rets env env1 o h
    simp [evalStatementsLoop] at h
    exact Frame.of_names (by rw [h.2])
  | cons s list ih =>
    intro ret rets env env1 o h
    simp only [evalStatementsLoop] at h
    rcases h1 : ev env s with _ | ⟨o1, e⟩
    · simp [h1] at h
    · have f1 := hev env s o1 e h1
      cases o1 with
      | normal r rs => simp only [h1] at h; exact f1.trans (ih r rs e env1 o h)
      | abrupt p => simp [h1] at h; obtain ⟨-, rfl⟩ := h; exact f1

theorem evalBlockIn_names (ev : Eval) (hev : FrameEval ev) (env env1 : Env) (block : List Stmt)
    (o : Outcome) (h : evalBlockIn ev env block = some (o, env1)) : env1.names = env.names := by
  unfold evalBlockIn evalStatementsIn at h
  rcases h1 : evalStatementsLoop ev Value.None [] (NewEnv env) block with _ | ⟨o1, c1⟩
  · simp [h1, leave] at h
  · have f1 := evalStatementsLoop_frame ev hev block _ _ _ _ _ h1
    simp only [h1, leave, Option.some.injEq, Prod.mk.injEq] at h
    obtain ⟨-, rfl⟩ := h
    rw [Env.Outer_names, f1.1]
    rfl

theorem evalIf_frame (evx : Env → Expr → Res) (hx : PureExpr evx) (ev : Eval) (hev : FrameEval ev)
    (env env1 : Env) (cond : Expr) (body : List Stmt) (els : Option Stmt) (o : Outcome)
    (h : evalIf evx ev env cond body els = some (o, env1)) : Frame env env1 := by
  unfold evalIf at h
  rcases h1 : evx env cond with _ | ⟨o1, e⟩
  · simp [h1] at h
  · have := hx env cond o1 e h1
    subst this
    simp only [h1] at h
    split at h
    · rename_i heq
      simp only [Option.some.injEq, Prod.mk.injEq] at heq
      obtain ⟨-, rfl⟩ := heq
      exact hev _ _ _ _ h
    · rename_i heq
      simp only [Option.some.injEq, Prod.mk.injEq] at heq
      obtain ⟨-, rfl⟩ := heq
      split at h
      · exact hev _ _ _ _ h
      · simp at h; exact Frame.of_names (by rw [h.2])
    · rename_i heq
      simp only [Option.some.injEq, Prod.mk.injEq] at heq
      obtain ⟨-, rfl⟩ := heq
      exact Frame.of_names (by rw [fault_env _ _ _ _ _ h])
    · simp at h
      obtain ⟨-, rfl⟩ := h
      exact Frame.refl _

theorem evalCond_env (evx : Env → Expr → Res) (hx : PureExpr evx) (env env1 : Env)
    (cond : Option Expr) (o : Outcome)
    (h : evalCond evx env cond = some (o, env1)) : env1 = env := by
  cases cond with
  | none => simp [evalCond] at h; exact h.2.symm
  | some c => exact hx env c o env1 h

theorem evalPost_frame (ev : Eval) (hev : FrameEval ev) (env env1 : Env) (post : Option Stmt)
    (o : Outcome) (h : evalPost ev env post = some (o, env1)) : Frame env env1 := by
  cases post with
  | none => simp [evalPost] at h; exact Frame.of_names (by rw [h.2])
  | some p => exact hev env p o env1 h

theorem evalForLoop_frame (evx : Env → Expr → Res) (hx : PureExpr evx) (ev : Eval)
    (hev : FrameEval ev) (cond : Option Expr) (post : Option Stmt) (body : List Stmt) :
    ∀ (n : Nat) (env env1 : Env) (o : Outcome),
      evalForLoop evx ev cond post body n env = some (o, env1) → Frame env env1 := by
  intro n
  induction n with
  | zero => intro env env1 o h; simp [evalForLoop] at h
  | succ n ih =>
    intro env env1 o h
    simp only [evalForLoop] at h
    rcases h1 : evalCond evx env cond with _ | ⟨o1, e⟩
    · simp [h1] at h
    · have := evalCond_env evx hx env e cond o1 h1
      subst this
      simp only [h1] at h
      have tail : ∀ e2, Frame e e2 →
          (match evalPost ev e2 post with
            | some (.normal _ _, env) => evalForLoop evx ev cond post body n env
            | other => other) = some (o, env1) → Frame e env1 := by
        intro e2 f2 h2
        rcases h3 : evalPost ev e2 post with _ | ⟨o3, e3⟩
        · simp [h3] at h2
        · have f3 := evalPost_frame ev hev e2 e3 post o3 h3
          cases o3 with
          | normal r rs => simp only [h3] at h2; exact (f2.trans f3).trans (ih e3 env1 o h2)
          | abrupt q => simp [h3] at h2; obtain ⟨-, rfl⟩ := h2; exact f2.trans f3
      split at h
      · rename_i heq
        simp only [Option.some.injEq, Prod.mk.injEq] at heq
        obtain ⟨-, rfl⟩ := heq
        simp at h; exact Frame.of_names (by rw [h.2])
      · rename_i heq
        simp only [Option.some.injEq, Prod.mk.injEq] at heq
        obtain ⟨-, rfl⟩ := heq
        split at h
        · rename_i e2 hb
          have f2 := hev _ _ _ _ hb
          simp at h; obtain ⟨-, rfl⟩ := h; exact f2
        · rename_i e2 hb
          exact tail e2 (hev _ _ _ _ hb) h
        · rename_i e2 hb
          exact tail e2 (hev _ _ _ _ hb) h
        · exact hev _ _ _ _ h
      · rename_i heq
        simp only [Option.some.injEq, Prod.mk.injEq] at heq
        obtain ⟨-, rfl⟩ := heq
        exact Frame.of_names (by rw [fault_env _ _ _ _ _ h])
      · simp at h
        obtain ⟨-, rfl⟩ := h
        exact Frame.refl _

theorem evalFor_frame (fuel : Nat) (evx : Env → Expr → Res) (hx : PureExpr evx) (ev : Eval)
    (hev : FrameEval ev) (env env1 : Env) (init : Option Stmt) (cond : Option Expr)
    (post : Option Stmt) (body : List Stmt) (o : Outcome)
    (h : evalFor fuel evx ev env init cond post body = some (o, env1)) : Frame env env1 := by
  unfold evalFor at h
  cases init with
  | none => exact evalForLoop_frame evx hx ev hev cond post body fuel env env1 o h
  | some s =>
    simp only at h
    rcases h1 : ev env s with _ | ⟨o1, e⟩
    · simp [h1] at h
    · have f1 := hev env s o1 e h1
      cases o1 with
      | normal r rs =>
        simp only [h1] at h
        exact f1.trans (evalForLoop_frame evx hx ev hev cond post body fuel e env1 o h)
      | abrupt q => simp [h1] at h; obtain ⟨-, rfl⟩ := h; exact f1

theorem evalStatement_frame : ∀ (fuel : Nat), FrameEval (evalStatement classic fuel)
  | 0 => fun env s o env1 h => by simp [evalStatement] at h
  | fuel + 1 => fun env s o env1 h => by
    have ih := evalStatement_frame fuel
    have hx := evalExpr_env fuel
    cases s <;> simp only [evalStatement, classic, Errorf] at h
    case AssignStmt lhs tok rhs => exact evalAssignments_frame _ hx _ _ _ _ _ _ h
    case BlockStmt list => exact Frame.of_names (evalBlockIn_names _ ih _ _ _ _ h)
    case BranchStmt tok label => exact Frame.of_names (by rw [evalBranch_env _ _ _ _ _ h])
    case DeclStmt decl => exact evalDecl_frame _ hx _ _ _ _ h
    case ExprStmt x => exact Frame.of_names (by rw [hx _ _ _ _ h])
    case ForStmt init cond post body => exact evalFor_frame _ _ hx _ ih _ _ _ _ _ _ _ h
    case IfStmt cond body els => exact evalIf_frame _ hx _ ih _ _ _ _ _ _ h
    case ReturnStmt results => exact Frame.of_names (by rw [evalReturn_env _ hx _ _ _ _ h])
    all_goals
      simp only [Option.some.injEq, Prod.mk.injEq] at h
      exact Frame.of_names (by rw [h.2])

/-! ## evalBlock: the child scope -/

theorem evalBlock_declare (fuel : Nat) (env env1 : Env) (x : String) (e : Expr) (v : Value)
    (rs : List Value) (he : evalExpr fuel (NewEnv env) e = some (.normal v rs, env1)) :
    evalStatement classic (fuel + 2) env
        (.BlockStmt [.DeclStmt (.GenDecl .VAR [⟨[x], none, [e]⟩])])
      = some (.normal v.defaultTyped [], env) := by
  have h1 := evalExpr_env fuel _ _ _ _ he
  subst h1
  simp only [NewEnv] at he
  simp [evalStatement, evalBlockIn, evalStatementsIn, evalStatementsLoop, classic, evalDecl,
    evalValueSpecs, evalValueSpec, evalExprsIn, he, defineAll, typedAs, NewEnv, Env.define,
    unpackValues, leave, Env.Outer]

/-- C4: `evalBlock` evaluates the statements of the block in a new, empty
environment whose `Outer` is the environment of the caller; whatever the
block does and however it ends, the caller's environment defines the same
names afterwards, scope by scope; and the block `{ var x = e }` can be
evaluated any number of times in a row from the same environment, also one
that already defines `x`: each time it returns normally. -/
theorem evalBlock_child_scope (fuel : Nat) (env env1 : Env) (block : List Stmt) (x : String)
    (e : Expr) (v : Value) (rs : List Value) (n : Nat)
    (he : evalExpr fuel (NewEnv env) e = some (.normal v rs, env1)) :
    (evalBlock classic fuel env block = leave (evalStatements classic fuel (NewEnv env) block)
      ∧ (NewEnv env).Binds = [] ∧ (NewEnv env).Outer = env)
    ∧ (∀ o env2, evalBlock classic fuel env block = some (o, env2) → env2.names = env.names)
    ∧ runAll (evalStatement classic (fuel + 2)) env
        (List.replicate n (.BlockStmt [.DeclStmt (.GenDecl .VAR [⟨[x], none, [e]⟩])]))
      = some env := by
  refine ⟨⟨rfl, rfl, rfl⟩, ?_, ?_⟩
  · intro o env2 h
    exact evalBlockIn_names _ (evalStatement_frame fuel) env env2 block o h
  · induction n with
    | zero => rfl
    | succ n ih =>
      simp only [List.replicate_succ, runAll, evalBlock_declare fuel env env1 x e v rs he]
      exact ih

/-- Witness of C4: the block `{ var ii = i }` of test continue_3, twice, in
an environment that binds `i` and `ii`. -/
theorem evalBlock_child_scope_witness :
    evalExpr 0 (NewEnv (Env.mk [("i", .int .Int 1), ("ii", .int .Int 0)] .nil)) (.Ident "i")
      = some (.normal (.int .Int 1) [],
          NewEnv (Env.mk [("i", .int .Int 1), ("ii", .int .Int 0)] .nil))
    ∧ runAll (evalStatement classic 2) (Env.mk [("i", .int .Int 1), ("ii", .int .Int 0)] .nil)
        (List.replicate 2 (.BlockStmt [.DeclStmt (.GenDecl .VAR [⟨["ii"], none, [.Ident "i"]⟩])]))
      = some (Env.mk [("i", .int .Int 1), ("ii", .int .Int 0)] .nil) :=
  ⟨rfl, (evalBlock_child_scope 0 (Env.mk [("i", .int .Int 1), ("ii", .int .Int 0)] .nil)
    (NewEnv (Env.mk [("i", .int .Int 1), ("ii", .int .Int 0)] .nil)) [] "ii" (.Ident "i")
    (.int .Int 1) [] 2 rfl).2.2⟩

/-- Without a block there is no child scope: the declaration `var ii = i`
evaluated twice in the same environment fails with DuplicateBinding. -/
theorem declare_twice_same_scope :
    evalStatements classic 1 (Env.mk [("i", .int .Int 1)] .nil)
        [.DeclStmt (.GenDecl .VAR [⟨["ii"], none, [.Ident "i"]⟩]),
         .DeclStmt (.GenDecl .VAR [⟨["ii"], none, [.Ident "i"]⟩])]
      = some (.abrupt (.Fault .DuplicateBinding "ii"),
          Env.mk [("i", .int .Int 1), ("ii", .int .Int 1)] .nil) := by
  rfl

/-! ## Fixed-width arithmetic -/

theorem Kind.wrap_inRange (k : Kind) (x : ℤ) : k.inRange (k.wrap x) := by
  cases k <;> simp only [Kind.wrap, Kind.inRange, Kind.bits, Kind.signed] <;> norm_num <;>
    first
    | (split <;> omega)
    | omega

theorem Kind.wrap_emod (k : Kind) (x : ℤ) : k.wrap x % 2 ^ k.bits = x % 2 ^ k.bits := by
  cases k <;> simp only [Kind.wrap, Kind.bits, Kind.signed] <;> norm_num <;> split <;> omega

theorem Kind.wrap_congr (k : Kind) (x y : ℤ) (h : x % 2 ^ k.bits = y % 2 ^ k.bits) :
    k.wrap x = k.wrap y := by
  simp only [Kind.wrap, h]

theorem Kind.wrap_eq_self (k : Kind) (x : ℤ) (h : k.inRange x) : k.wrap x = x := by
  cases k <;> simp only [Kind.wrap, Kind.inRange, Kind.bits, Kind.signed] at * <;> norm_num at * <;>
    first
    | (split <;> omega)
    | omega

theorem Kind.wrap_add_wrap (k : Kind) (a b : ℤ) : k.wrap (k.wrap a + b) = k.wrap (a + b) := by
  apply Kind.wrap_congr
  rw [Int.add_emod, Kind.wrap_emod, ← Int.add_emod]

/-! ## The loop of test continue_1 -/

theorem evalExpr_eq (fuel : Nat) (env : Env) (x : Expr) :
    evalExpr fuel env x = evalExprIn (match fuel with | 0 => fun _ _ => none | f + 1 => evalExpr f) env x := by
  cases fuel <;> rfl

theorem wrap_three : Kind.Int.wrap 3 = 3 := by decide
theorem wrap_one : Kind.Int.wrap 1 = 1 := by decide
theorem parseInt_three : parseInt "3" = some 3 := by decide
theorem parseInt_one : parseInt "1" = some 1 := by decide

theorem continueBody_step (d : Nat) (m j k : Int) :
    evalStatement classic (d + 4) (ijk m j k) (.BlockStmt continueBody)
      = if m = 3 then some (.abrupt (.Continue none), ijk m m k)
        else some (.normal (.int .Int (Kind.Int.wrap (k + m))) [], ijk m j (Kind.Int.wrap (k + m))) := by
  by_cases hm : m = 3
  · simp [hm, evalStatement, classic, evalBlockIn, evalStatementsIn, evalStatementsLoop, continueBody,
      evalIf, evalExpr_eq, evalExprIn, ijk, Env.lookup, List.lookup, evalBinaryValues, binaryInt,
      compareInt, parseInt_three, wrap_three, ofExcept, NewEnv, evalAssignments, evalExprsIn, placeAll,
      placeOne, Env.assign, storable, setBind, unpackValues, evalBranch, leave, Env.Outer]
  · simp [hm, evalStatement, classic, evalBlockIn, evalStatementsIn, evalStatementsLoop, continueBody,
      evalIf, evalExpr_eq, evalExprIn, ijk, Env.lookup, List.lookup, evalBinaryValues, binaryInt,
      compareInt, arithInt, parseInt_three, wrap_three, ofExcept, NewEnv, evalAssignments, evalExprsIn, placeAll,
      placeOne, Env.assign, storable, setBind, unpackValues, evalBranch, leave, Env.Outer]

theorem continueCond_step (fuel : Nat) (lit : String) (n m j k : Int)
    (hlit : parseInt lit = some n) (hn : Kind.Int.inRange n) :
    evalCond (evalExpr fuel) (ijk m j k) (some (.BinaryExpr (.Ident "i") .LEQ (.BasicLit .INT lit)))
      = some (.normal (.bool (decide (m ≤ n))) [], ijk m j k) := by
  simp [evalCond, evalExpr_eq, evalExprIn, ijk, Env.lookup, List.lookup, hlit, evalBinaryValues,
    binaryInt, compareInt, ofExcept, Kind.wrap_eq_self _ _ hn]

theorem continuePost_step (d : Nat) (m j k : Int) :
    evalPost (evalStatement classic (d + 1)) (ijk m j k)
        (some (.AssignStmt [.Ident "i"] .ASSIGN
          [.BinaryExpr (.Ident "i") .ADD (.BasicLit .INT "1")]))
      = some (.normal (.int .Int (Kind.Int.wrap (m + 1))) [], ijk (Kind.Int.wrap (m + 1)) j k) := by
  simp [evalPost, evalStatement, classic, evalExpr_eq, evalExprIn, ijk, Env.lookup, List.lookup,
    evalBinaryValues, binaryInt, compareInt, arithInt, parseInt_one, wrap_one, ofExcept,
    evalAssignments, evalExprsIn, placeAll, placeOne, Env.assign, storable, setBind, unpackValues]

theorem continueInit_step (d : Nat) (m j k : Int) :
    evalStatement classic (d + 1) (ijk m j k) (.AssignStmt [.Ident "i"] .ASSIGN [.BasicLit .INT "1"])
      = some (.normal (.int .Int 1) [], ijk 1 j k) := by
  simp [evalStatement, classic, evalExpr_eq, evalExprIn, ijk, Env.lookup, List.lookup,
    parseInt_one, wrap_one, evalAssignments, evalExprsIn, placeAll, placeOne, Env.assign, storable,
    setBind, unpackValues]

theorem continueLoop_iter (lit : String) (n : ℤ) (hlit : parseInt lit = some n) (h0 : 0 ≤ n)
    (hn : n + 1 < 2 ^ 63) (d : Nat) :
    ∀ (r N : Nat) (m j κ κf : ℤ), 1 ≤ m → m + r = n + 1 → r + 1 ≤ N →
      2 * κf = 2 * κ + n * (n + 1) - m * (m - 1) - (if m ≤ 3 ∧ 3 ≤ n then 6 else 0) →
      evalForLoop (evalExpr (d + 4)) (evalStatement classic (d + 4))
          (some (.BinaryExpr (.Ident "i") .LEQ (.BasicLit .INT lit)))
          (some (.AssignStmt [.Ident "i"] .ASSIGN
            [.BinaryExpr (.Ident "i") .ADD (.BasicLit .INT "1")]))
          continueBody N (ijk m j (Kind.Int.wrap κ))
        = some (.normal .None [],
            ijk (n + 1) (if m ≤ 3 ∧ 3 ≤ n then 3 else j) (Kind.Int.wrap κf)) := by
  have hnr : Kind.Int.inRange n := by
    simp only [Kind.inRange, Kind.signed, Kind.bits]; norm_num; omega
  intro r
  induction r with
  | zero =>
    intro N m j κ κf hm hr hN hκ
    obtain ⟨N, rfl⟩ : ∃ N1, N = N1 + 1 := ⟨N - 1, by omega⟩
    have hmn : m = n + 1 := by omega
    subst hmn
    have hc : ¬ (n + 1 ≤ 3 ∧ 3 ≤ n) := by omega
    have hk : κf = κ := by
      rw [if_neg hc] at hκ
      have : (n + 1) * (n + 1 - 1) = n * (n + 1) := by ring
      omega
    have hle : ¬ (n + 1 ≤ n) := by omega
    simp [evalForLoop, continueCond_step _ lit n _ _ _ hlit hnr, hle, hc, hk]
  | succ r ih =>
    intro N m j κ κf hm hr hN hκ
    obtain ⟨N, rfl⟩ : ∃ N1, N = N1 + 1 := ⟨N - 1, by omega⟩
    have hle : m ≤ n := by omega
    have hm1 : Kind.Int.wrap (m + 1) = m + 1 := by
      apply Kind.wrap_eq_self
      simp only [Kind.inRange, Kind.signed, Kind.bits]; norm_num; omega
    by_cases h3 : m = 3
    · subst h3
      have hκ2 : 2 * κf = 2 * κ + n * (n + 1) - (3 + 1) * (3 + 1 - 1)
          - (if (3 : ℤ) + 1 ≤ 3 ∧ 3 ≤ n then 6 else 0) := by
        have c1 : (3 : ℤ) ≤ 3 ∧ 3 ≤ n := ⟨le_refl _, hle⟩
        have c2 : ¬ ((3 : ℤ) + 1 ≤ 3 ∧ 3 ≤ n) := by omega
        rw [if_pos c1] at hκ
        rw [if_neg c2]
        omega
      have := ih N (3 + 1) 3 κ κf (by omega) (by push_cast at hr ⊢; omega) (by omega) hκ2
      have c1 : (3 : ℤ) ≤ 3 ∧ 3 ≤ n := ⟨le_refl _, hle⟩
      have c2 : ¬ ((3 : ℤ) + 1 ≤ 3 ∧ 3 ≤ n) := by omega
      rw [if_neg c2] at this
      rw [if_pos c1]
      simp only [evalForLoop, continueCond_step _ lit n _ _ _ hlit hnr, hle, decide_True,
        continueBody_step, if_true, continuePost_step (d + 3), hm1, this]
    · have hκ2 : 2 * κf = 2 * (κ + m) + n * (n + 1) - (m + 1) * (m + 1 - 1)
          - (if m + 1 ≤ 3 ∧ 3 ≤ n then 6 else 0) := by
        have e1 : (m + 1) * (m + 1 - 1) = m * (m - 1) + 2 * m := by ring
        have e2 : (if m + 1 ≤ 3 ∧ 3 ≤ n then (6 : ℤ) else 0)
            = (if m ≤ 3 ∧ 3 ≤ n then 6 else 0) := by
          by_cases c : m ≤ 3 ∧ 3 ≤ n
          · have c2 : m + 1 ≤ 3 ∧ 3 ≤ n := by omega
            rw [if_pos c, if_pos c2]
          · have c2 : ¬ (m + 1 ≤ 3 ∧ 3 ≤ n) := by omega
            rw [if_neg c, if_neg c2]
        rw [e1, e2]
        omega
      have := ih N (m + 1) j (κ + m) κf (by omega) (by push_cast at hr ⊢; omega) (by omega) hκ2
      have e3 : (if m + 1 ≤ 3 ∧ 3 ≤ n then (3 : ℤ) else j) = (if m ≤ 3 ∧ 3 ≤ n then 3 else j) := by
        by_cases c : m ≤ 3 ∧ 3 ≤ n
        · have c2 : m + 1 ≤ 3 ∧ 3 ≤ n := by omega
          rw [if_pos c, if_pos c2]
        · have c2 : ¬ (m + 1 ≤ 3 ∧ 3 ≤ n) := by omega
          rw [if_neg c, if_neg c2]
      rw [e3] at this
      simp only [evalForLoop, continueCond_step _ lit n _ _ _ hlit hnr, hle, decide_True,
        continueBody_step, h3, if_false, continuePost_step (d + 3), hm1, Kind.wrap_add_wrap, this]

theorem evalStatement_for (fuel : Nat) (env : Env) (init : Option Stmt) (cond : Option Expr)
    (post : Option Stmt) (body : List Stmt) :
    evalStatement classic (fuel + 1) env (.ForStmt init cond post body)
      = evalFor fuel (evalExpr fuel) (evalStatement classic fuel) env init cond post body := rfl

theorem continueLoop_result (lit : String) (n : ℕ) (hlit : parseInt lit = some (n : ℤ))
    (h3 : 3 ≤ n) (hn : (n : ℤ) + 1 < 2 ^ 63) (i0 : ℤ) (fuel : ℕ) (hf : n + 2 ≤ fuel) :
    evalStatement classic fuel (ijk i0 0 0) (continueLoop lit)
      = some (.normal .None [],
          ijk (n + 1) 3 (Kind.Int.wrap ((n : ℤ) * (n + 1) / 2 - 3))) := by
  obtain ⟨d, rfl⟩ : ∃ d, fuel = d + 5 := ⟨fuel - 5, by omega⟩
  have hev : (2 : ℤ) ∣ (n : ℤ) * (n + 1) := (Int.even_mul_succ_self n).two_dvd
  have hκ : 2 * ((n : ℤ) * (n + 1) / 2 - 3)
      = 2 * 0 + (n : ℤ) * (n + 1) - 1 * (1 - 1) - (if (1 : ℤ) ≤ 3 ∧ (3 : ℤ) ≤ n then 6 else 0) := by
    have c : (1 : ℤ) ≤ 3 ∧ (3 : ℤ) ≤ n := ⟨by norm_num, by exact_mod_cast h3⟩
    rw [if_pos c]
    obtain ⟨t, ht⟩ := hev
    rw [ht]
    omega
  have hloop := continueLoop_iter lit n hlit (by omega) hn d n (d + 4) 1 0 0 _ (le_refl _)
    (by ring) (by omega) hκ
  have c : (1 : ℤ) ≤ 3 ∧ (3 : ℤ) ≤ n := ⟨by norm_num, by exact_mod_cast h3⟩
  rw [if_pos c] at hloop
  have w0 : Kind.Int.wrap 0 = 0 := by decide
  rw [w0] at hloop
  rw [continueLoop, evalStatement_for]
  simp only [evalFor, continueInit_step, hloop]

/-- C5, as amended: for every bound `n ≥ 3` whose sum `n(n+1)/2 - 3` fits
the 64-bit `int`, the loop of test continue_1, started with `j = k = 0` and
given fuel for `n+1` iterations, returns normally and leaves `i = n+1`,
`j = 3` and `k = n(n+1)/2 - 3`; at `i = 3` the body stops with the `Continue`
signal raised in the nested block, `k` unchanged. -/
theorem continueLoop_sum (lit : String) (n : ℕ) (hlit : parseInt lit = some (n : ℤ))
    (h3 : 3 ≤ n) (hsum : (n : ℤ) * (n + 1) / 2 - 3 < 2 ^ 63) (i0 : ℤ) (fuel : ℕ)
    (hf : n + 2 ≤ fuel) :
    evalStatement classic fuel (ijk i0 0 0) (continueLoop lit)
      = some (.normal .None [], ijk (n + 1) 3 ((n : ℤ) * (n + 1) / 2 - 3))
    ∧ ∀ j k, evalStatement classic fuel (ijk 3 j k) (.BlockStmt continueBody)
      = some (.abrupt (.Continue none), ijk 3 3 k) := by
  have hge : (3 : ℤ) ≤ n := by exact_mod_cast h3
  have hlow : (n : ℤ) + 1 ≤ (n : ℤ) * (n + 1) / 2 - 3 + 2 := by
    have h1 : 2 * (n : ℤ) + 4 ≤ (n : ℤ) * (n + 1) := by nlinarith
    omega
  have hn : (n : ℤ) + 1 < 2 ^ 63 := by
    rcases Nat.lt_or_ge n 5 with h5 | h5
    · have : (n : ℤ) < 5 := by exact_mod_cast h5
      norm_num; omega
    · have h5z : (5 : ℤ) ≤ n := by exact_mod_cast h5
      have h1 : 2 * (n : ℤ) + 8 ≤ (n : ℤ) * (n + 1) := by nlinarith
      omega
  have hr : Kind.Int.wrap ((n : ℤ) * (n + 1) / 2 - 3) = (n : ℤ) * (n + 1) / 2 - 3 := by
    apply Kind.wrap_eq_self
    simp only [Kind.inRange, Kind.signed, Kind.bits]
    norm_num
    constructor
    · omega
    · norm_num at hsum; exact hsum
  constructor
  · rw [continueLoop_result lit n hlit h3 hn i0 fuel hf, hr]
  · intro j k
    obtain ⟨d, rfl⟩ : ∃ d, fuel = d + 4 := ⟨fuel - 4, by omega⟩
    rw [continueBody_step]
    simp

/-- Witness of C5 on the test itself, `n = 7`: `k = 25`, `j = 3`. -/
theorem continueLoop_sum_witness :
    parseInt "7" = some ((7 : ℕ) : ℤ) ∧ 3 ≤ 7 ∧ (((7 : ℕ) : ℤ) * ((7 : ℕ) + 1) / 2 - 3 < 2 ^ 63)
    ∧ 7 + 2 ≤ 9
    ∧ evalStatement classic 9 (ijk 8 0 0) (continueLoop "7")
      = some (.normal .None [], ijk ((7 : ℕ) + 1) 3 (((7 : ℕ) : ℤ) * ((7 : ℕ) + 1) / 2 - 3)) :=
  ⟨by decide, by decide, by decide, by decide,
    (continueLoop_sum "7" 7 (by decide) (by decide) (by decide) 8 9 (by decide)).1⟩

/-- Counterexample to C5 as stated: with the bound `n = 2^32` the sum
overflows the 64-bit `int` and the loop leaves `k` negative, not
`n(n+1)/2 - 3`. -/
theorem continueLoop_overflow :
    evalStatement classic 4294967298 (ijk 0 0 0) (continueLoop "4294967296")
      = some (.normal .None [], ijk 4294967297 3 (-9223372034707292163))
    ∧ (-9223372034707292163 : ℤ) ≠ 4294967296 * (4294967296 + 1) / 2 - 3 := by
  constructor
  · have h := continueLoop_result "4294967296" 4294967296 (by decide) (by decide) (by decide)
      0 4294967298 (by decide)
    have e1 : ((4294967296 : ℕ) : ℤ) + 1 = 4294967297 := by norm_num
    have e2 : Kind.Int.wrap (((4294967296 : ℕ) : ℤ) * (((4294967296 : ℕ) : ℤ) + 1) / 2 - 3)
        = -9223372034707292163 := by decide
    rw [e2, e1] at h
    exact h
  · decide


/-! ## The loops of the test table, evaluated -/

/-- Tests for_1, for_2, for_3: the loop leaves `i = 3`, `j = 1`, `k = 2`. -/
theorem forLoop_test :
    evalStatement classic 5 (ijk 0 0 0) forLoop = some (.normal .None [], ijk 3 1 2) := by
  rfl

/-- Tests continue_3, continue_4: the body that declares `ii` is evaluated
seven times and the loop leaves `j = 3`, `k = 25`. -/
theorem continueLoopVar_test :
    evalStatement classic 9 (ijk 0 0 0) (continueLoopVar "7")
      = some (.normal .None [], ijk 8 3 25) := by
  rfl

/-! ## Statements of the test table that evalStatement does not implement -/

/-- C7, as amended: `cx <- x; <-cx` fails at the send: on the send statement
`evalStatement` panics with "unimplemented statement", whatever the other
methods are and whatever `cx` and `x` are; the receive is never evaluated
(the evaluator is called on the send only), nothing is returned and the
environment is as it was, also when the two statements are a block. -/
theorem send_recv_unimplemented (H : Handlers) (fuel : Nat) (env : Env) (x : Expr) :
    evalStatements H (fuel + 1) env (sendRecv x)
      = some (.abrupt (.RuntimeError "unimplemented statement: %#v"
          (.SendStmt (.Ident "cx") x)), env)
    ∧ evalStatementsIn (logged (evalStatement H (fuel + 1))) (env, []) (sendRecv x)
      = some (.abrupt (.RuntimeError "unimplemented statement: %#v"
          (.SendStmt (.Ident "cx") x)), (env, [.SendStmt (.Ident "cx") x]))
    ∧ evalBlock H (fuel + 1) env (sendRecv x)
      = some (.abrupt (.RuntimeError "unimplemented statement: %#v"
          (.SendStmt (.Ident "cx") x)), env) :=
  ⟨rfl, rfl, rfl⟩

/-- Counterexample to C7 as stated: test send_recv, `cx <- "x"; <-cx`, does
not yield `("x", true)`: whatever the environment binds `cx` to, the list
ends with the panic "unimplemented statement" on the send. -/
theorem send_recv_fails :
    (∀ env : Env, evalStatements classic 1 env (sendRecv (.BasicLit .STRING (quoteString "x")))
      = some (.abrupt (.RuntimeError "unimplemented statement: %#v"
          (.SendStmt (.Ident "cx") (.BasicLit .STRING (quoteString "x")))), env))
    ∧ evalStatementsIn (logged (evalStatement classic 1)) (Env.nil, [])
        (sendRecv (.BasicLit .STRING (quoteString "x")))
      = some (.abrupt (.RuntimeError "unimplemented statement: %#v"
          (.SendStmt (.Ident "cx") (.BasicLit .STRING (quoteString "x")))),
          (Env.nil, [.SendStmt (.Ident "cx") (.BasicLit .STRING (quoteString "x"))])) :=
  ⟨fun _ => rfl, rfl⟩

/-- C8, as amended: the body `defer f(); panic(panick)` of `test_recover`
fails at the defer statement: `evalStatement` panics on it with
"unimplemented statement", whatever the other methods are and whatever call
is deferred; no closure is registered, `panic(panick)` is never evaluated
(the evaluator is called on the defer statement only), and the call
`test_recover(true, p)` ends with that panic for every `p`, the environment
of the caller, `vpanic` included, being as it was. -/
theorem defer_unimplemented (H : Handlers) (fuel : Nat) (env : Env) (deferred : Expr)
    (p : Value) :
    evalStatements H (fuel + 1) env (recoverBody deferred)
      = some (.abrupt (.RuntimeError "unimplemented statement: %#v" (.DeferStmt deferred)),
          env)
    ∧ evalStatementsIn (logged (evalStatement H (fuel + 1))) (env, []) (recoverBody deferred)
      = some (.abrupt (.RuntimeError "unimplemented statement: %#v" (.DeferStmt deferred)),
          (env, [.DeferStmt deferred]))
    ∧ callFunction (evalStatement H (fuel + 2)) env ["rec", "panick"] [.bool true, p]
        (recoverBody deferred)
      = some (.abrupt (.RuntimeError "unimplemented statement: %#v" (.DeferStmt deferred)),
          env) := by
  refine ⟨rfl, rfl, ?_⟩
  have hb : ∀ fenv, evalStatement H (fuel + 2) fenv (.BlockStmt (recoverBody deferred))
      = some (.abrupt (.RuntimeError "unimplemented statement: %#v" (.DeferStmt deferred)),
          fenv) := fun _ => rfl
  have hne : (("panick" : String) == "rec") = false := by decide
  simp [callFunction, defineAll, typedAs, NewEnv, Env.define, List.lookup, hb, Env.Outer, hne]

/-- Counterexample to C8 as stated: `test_recover(true, -3)` of test recover
does not return: whatever call the defer statement holds, the call ends with
the panic "unimplemented statement" on the defer statement, and `vpanic`,
nil before, is nil afterwards, not `-3`. -/
theorem defer_recover_fails :
    (∀ deferred : Expr,
      callFunction (evalStatement classic 2) (Env.mk [("vpanic", .Nil)] .nil)
          ["rec", "panick"] [.bool true, .int .Int (-3)] (recoverBody deferred)
        = some (.abrupt (.RuntimeError "unimplemented statement: %#v" (.DeferStmt deferred)),
            Env.mk [("vpanic", .Nil)] .nil))
    ∧ (Env.mk [("vpanic", .Nil)] .nil).lookup "vpanic" = some .Nil :=
  ⟨fun _ => rfl, rfl⟩

/-! ## Addition of fixed-width integers -/

theorem Kind.inRange_unique (k : Kind) (x r s : ℤ) (hr : k.inRange r) (hs : k.inRange s)
    (hrx : (r - x) % 2 ^ k.bits = 0) (hsx : (s - x) % 2 ^ k.bits = 0) : r = s := by
  cases k <;> simp only [Kind.inRange, Kind.bits, Kind.signed] at * <;> norm_num at * <;> omega

theorem Kind.wrap_sub_emod (k : Kind) (x : ℤ) : (k.wrap x - x) % 2 ^ k.bits = 0 := by
  have h := Kind.wrap_emod k x
  exact Int.emod_eq_zero_of_dvd (Int.ModEq.dvd h.symm)

/-- C9: for every integer kind `k` and all `a`, `b`, the sum of two values of
kind `k` holding `a` and `b` is the value of kind `k` holding the one integer
in the range of `k` that is congruent to `a + b` modulo `2 ^ bits`;
`int8(64)+64` is `int8(-128)`, and `v2 += 255` leaves 1 in a `uint8` that
held 2. -/
theorem add_wraps (k : Kind) (a b : ℤ) (fuel : Nat) (outer : Env) :
    evalExpr fuel (Env.mk [("a", .int k a), ("b", .int k b)] outer)
        (.BinaryExpr (.Ident "a") .ADD (.Ident "b"))
      = some (.normal (.int k (k.wrap (a + b))) [],
          Env.mk [("a", .int k a), ("b", .int k b)] outer)
    ∧ k.inRange (k.wrap (a + b))
    ∧ (k.wrap (a + b) - (a + b)) % 2 ^ k.bits = 0
    ∧ (∀ r, k.inRange r → (r - (a + b)) % 2 ^ k.bits = 0 → r = k.wrap (a + b))
    ∧ evalExpr fuel outer
        (.BinaryExpr (.CallExpr (.Ident "int8") [.BasicLit .INT "64"]) .ADD (.BasicLit .INT "64"))
      = some (.normal (.int .Int8 (-128)) [], outer)
    ∧ evalStatement classic (fuel + 1) (Env.mk [("v2", .int .Uint8 2)] outer)
        (.AssignStmt [.Ident "v2"] .ADD_ASSIGN [.BasicLit .INT "255"])
      = some (.normal (.int .Uint8 1) [], Env.mk [("v2", .int .Uint8 1)] outer) := by
  refine ⟨?_, Kind.wrap_inRange k _, Kind.wrap_sub_emod k _, ?_, ?_, ?_⟩
  · simp [evalExpr_eq, evalExprIn, Env.lookup, List.lookup, evalBinaryValues, binaryInt,
      compareInt, arithInt, ofExcept]
  · intro r hr hrx
    exact Kind.inRange_unique k (a + b) r _ hr (Kind.wrap_inRange k _) hrx (Kind.wrap_sub_emod k _)
  · have p64 : parseInt "64" = some 64 := by decide
    have w1 : Kind.Int8.wrap 64 = 64 := by decide
    have w2 : Kind.Int8.wrap 128 = -128 := by decide
    have kn : kindOfName "int8" = some Kind.Int8 := by decide
    simp [evalExpr_eq, evalExprIn, kn, p64, convertTo, evalBinaryValues, binaryInt,
      compareInt, arithInt, ofExcept, w1, w2]
  · have p255 : parseInt "255" = some 255 := by decide
    have w1 : Kind.Uint8.wrap 255 = 255 := by decide
    have w2 : Kind.Uint8.wrap 257 = 1 := by decide
    simp [evalStatement, classic, evalAssignments, evalExprsIn, evalExpr_eq, evalExprIn, p255,
      placeAll, placeOne, compoundOp, Env.lookup, List.lookup, evalBinaryValues, binaryInt,
      compareInt, arithInt, w1, w2, Env.assign, storable, setBind, unpackValues]

/-! ## Quotation -/

/-- C10: when `E` evaluates to the integer `n`, `quasiquote{1 + unquote{E}}`
evaluates to the node `1 + n` whose right operand is the literal of `n`, in
the environment one evaluation of `E` leaves; the only expression the
expansion has evaluated is `E`, once; and `quote{X}` evaluates to `X` itself,
whatever evaluator is at hand and with any fuel. -/
theorem quasiquote_unquote (fuel : Nat) (env env1 : Env) (E X : Expr) (v : Value)
    (rs : List Value) (n : ℤ)
    (hE : evalExpr fuel env E = some (.normal v rs, env1)) (hv : v.asInt = some n) :
    evalExpr (fuel + 1) env
        (.UnaryExpr .QUASIQUOTE (.BinaryExpr (.BasicLit .INT "1") .ADD (.UnaryExpr .UNQUOTE E)))
      = some (.normal (.node (.BinaryExpr (.BasicLit .INT "1") .ADD
          (.BasicLit .INT (toString n)))) [], env1)
    ∧ quasiquoteIn (logged (evalExpr fuel)) 1 (env, [])
        (.BinaryExpr (.BasicLit .INT "1") .ADD (.UnaryExpr .UNQUOTE E))
      = some (.ok (.BinaryExpr (.BasicLit .INT "1") .ADD (.BasicLit .INT (toString n))),
          (env1, [E]))
    ∧ (∀ fuel1, evalExpr fuel1 env (.UnaryExpr .QUOTE X) = some (.normal (.node X) [], env))
    ∧ (∀ unq, evalExprIn unq env (.UnaryExpr .QUOTE X) = some (.normal (.node X) [], env)) := by
  have hn : v.toNode = some (.BasicLit .INT (toString n)) := by
    cases v <;> simp [Value.asInt] at hv <;> simp [Value.toNode, hv]
  refine ⟨?_, ?_, ?_, ?_⟩
  · simp [evalExpr, evalExprIn, quasiquoteIn, hE, hn]
  · simp [quasiquoteIn, logged, hE, hn]
  · intro fuel1
    cases fuel1 <;> simp [evalExpr, evalExprIn]
  · intro unq
    simp [evalExprIn]

/-- Witness of C10 on test quasiquote_1: `E` is `2+3`, the node is `1 + 5`. -/
theorem quasiquote_unquote_witness :
    evalExpr 0 Env.nil (.BinaryExpr (.BasicLit .INT "2") .ADD (.BasicLit .INT "3"))
      = some (.normal (.const 5) [], Env.nil)
    ∧ (Value.const 5).asInt = some 5
    ∧ evalExpr 1 Env.nil
        (.UnaryExpr .QUASIQUOTE (.BinaryExpr (.BasicLit .INT "1") .ADD
          (.UnaryExpr .UNQUOTE (.BinaryExpr (.BasicLit .INT "2") .ADD (.BasicLit .INT "3")))))
      = some (.normal (.node (.BinaryExpr (.BasicLit .INT "1") .ADD (.BasicLit .INT "5"))) [],
          Env.nil) :=
  ⟨rfl, rfl,
    (quasiquote_unquote 0 Env.nil Env.nil
      (.BinaryExpr (.BasicLit .INT "2") .ADD (.BasicLit .INT "3")) .BadExpr (.const 5) [] 5
      rfl rfl).1⟩

/-! ## evalStatement: every statement is dispatched -/

/-- C12: with fuel for one call, `evalStatement` does exactly one of three
things with a statement. It returns what one method returns (the one of its
kind: assignment, block, branch, declaration, expression, for, if, return),
or the statement is an `EmptyStmt` and it returns `(None, nil)`, or it
panics with "unimplemented statement" carrying the statement. Among the
statements it hands to no method, the `EmptyStmt` is the only one for which
it returns `(None, nil)`; `IncDecStmt`, `CaseClause`, `CommClause` and a kind
the switch does not name (`BadStmt`) all panic. -/
theorem evalStatement_exhaustive (H : Handlers) (fuel : Nat) (env : Env) (node : Stmt) :
    ((∃ lhs tok rhs, node = .AssignStmt lhs tok rhs ∧ evalStatement H (fuel + 1) env node
          = H.evalAssignments fuel (evalStatement H fuel) env lhs tok rhs)
      ∨ (∃ list, node = .BlockStmt list ∧ evalStatement H (fuel + 1) env node
          = evalBlock H fuel env list)
      ∨ (∃ tok label, node = .BranchStmt tok label ∧ evalStatement H (fuel + 1) env node
          = H.evalBranch fuel (evalStatement H fuel) env tok label)
      ∨ (∃ decl, node = .DeclStmt decl ∧ evalStatement H (fuel + 1) env node
          = H.evalDecl fuel (evalStatement H fuel) env decl)
      ∨ (∃ x, node = .ExprStmt x ∧ evalStatement H (fuel + 1) env node
          = H.evalExpr fuel (evalStatement H fuel) env x)
      ∨ (∃ init cond post body, node = .ForStmt init cond post body
          ∧ evalStatement H (fuel + 1) env node
          = H.evalFor fuel (evalStatement H fuel) env init cond post body)
      ∨ (∃ cond body els, node = .IfStmt cond body els ∧ evalStatement H (fuel + 1) env node
          = H.evalIf fuel (evalStatement H fuel) env cond body els)
      ∨ (∃ results, node = .ReturnStmt results ∧ evalStatement H (fuel + 1) env node
          = H.evalReturn fuel (evalStatement H fuel) env results)
      ∨ (node = .EmptyStmt
          ∧ evalStatement H (fuel + 1) env node = some (.normal .None [], env))
      ∨ (node.handled = false ∧ node ≠ .EmptyStmt ∧ evalStatement H (fuel + 1) env node
          = some (.abrupt (.RuntimeError "unimplemented statement: %#v" node), env)))
    ∧ ((node.handled = false
          ∧ evalStatement H (fuel + 1) env node = some (.normal .None [], env))
        ↔ node = .EmptyStmt)
    ∧ (∀ x tok, evalStatement H (fuel + 1) env (.IncDecStmt x tok)
        = some (.abrupt (.RuntimeError "unimplemented statement: %#v" (.IncDecStmt x tok)), env))
    ∧ (∀ list body, evalStatement H (fuel + 1) env (.CaseClause list body)
        = some (.abrupt (.RuntimeError "unimplemented statement: %#v" (.CaseClause list body)),
            env))
    ∧ (∀ comm body, evalStatement H (fuel + 1) env (.CommClause comm body)
        = some (.abrupt (.RuntimeError "unimplemented statement: %#v" (.CommClause comm body)),
            env))
    ∧ evalStatement H (fuel + 1) env .BadStmt
        = some (.abrupt (.RuntimeError "unimplemented statement: %#v" .BadStmt), env) := by
  refine ⟨?_, ?_, fun _ _ => rfl, fun _ _ => rfl, fun _ _ => rfl, rfl⟩
  · cases node
    case AssignStmt lhs tok rhs => exact Or.inl ⟨lhs, tok, rhs, rfl, rfl⟩
    case BlockStmt list => exact Or.inr (Or.inl ⟨list, rfl, rfl⟩)
    case BranchStmt tok label => exact Or.inr (Or.inr (Or.inl ⟨tok, label, rfl, rfl⟩))
    case DeclStmt decl => exact Or.inr (Or.inr (Or.inr (Or.inl ⟨decl, rfl, rfl⟩)))
    case ExprStmt x => exact Or.inr (Or.inr (Or.inr (Or.inr (Or.inl ⟨x, rfl, rfl⟩))))
    case ForStmt init cond post body =>
      exact Or.inr (Or.inr (Or.inr (Or.inr (Or.inr (Or.inl ⟨init, cond, post, body, rfl, rfl⟩)))))
    case IfStmt cond body els =>
      exact Or.inr (Or.inr (Or.inr (Or.inr (Or.inr (Or.inr (Or.inl ⟨cond, body, els, rfl, rfl⟩))))))
    case ReturnStmt results =>
      exact Or.inr (Or.inr (Or.inr (Or.inr (Or.inr (Or.inr (Or.inr
        (Or.inl ⟨results, rfl, rfl⟩)))))))
    case EmptyStmt =>
      exact Or.inr (Or.inr (Or.inr (Or.inr (Or.inr (Or.inr (Or.inr (Or.inr
        (Or.inl ⟨rfl, rfl⟩))))))))
    all_goals
      exact Or.inr (Or.inr (Or.inr (Or.inr (Or.inr (Or.inr (Or.inr (Or.inr
        (Or.inr ⟨rfl, by simp, rfl⟩))))))))
  · constructor
    · rintro ⟨hh, hr⟩
      cases node <;> first
        | rfl
        | (simp [Stmt.handled] at hh; done)
        | simp [evalStatement, Errorf] at hr
    · rintro rfl
      exact ⟨rfl, rfl⟩

/-! ## evalStatements and evalBlock: nothing to return -/

theorem eraseChildren_length : ∀ (ts : List Ast), (eraseChildren ts).length = ts.length
  | [] => rfl
  | _ :: ts => by simp [eraseChildren, eraseChildren_length ts]

mutual
theorem compareAst_eq_nil : ∀ (t u : Ast), compareAst t u = [] ↔ t.erase = u.erase
  | .BadDecl _ _, u => by cases u <;> simp [compareAst, Ast.typeOf, Ast.erase]
  | .BadExpr _ _, u => by cases u <;> simp [compareAst, Ast.typeOf, Ast.erase]
  | .BadStmt _ _, u => by cases u <;> simp [compareAst, Ast.typeOf, Ast.erase]
  | .Ident _ _, u => by cases u <;> simp [compareAst, Ast.typeOf, Ast.erase]
  | .BasicLit _ _ _, u => by cases u <;> simp [compareAst, Ast.typeOf, Ast.erase]
  | .Node n p op cs, u => by
    cases u with
    | Node n1 p1 op1 cs1 =>
      have ih := compareAstChildren_eq_nil cs cs1
      have hl := eraseChildren_length cs
      have hl1 := eraseChildren_length cs1
      simp only [compareAst, Ast.typeOf, Ast.erase, Ast.Op, Ast.Size, Ast.children,
        AstType.Node.injEq, Ast.Node.injEq, true_and]
      by_cases hn : n = n1
      · by_cases ho : op = op1
        · by_cases hlen : cs.length = cs1.length
          · simp [hn, ho, hlen, ih hlen]
          · have : ¬ eraseChildren cs = eraseChildren cs1 := by
              intro h
              apply hlen
              rw [← hl, ← hl1, h]
            simp [hn, ho, hlen, this]
        · simp [hn, ho]
      · simp [hn]
    | _ => simp [compareAst, Ast.typeOf, Ast.erase]
theorem compareAstChildren_eq_nil : ∀ (ts us : List Ast), ts.length = us.length →
    (compareAstChildren ts us = [] ↔ eraseChildren ts = eraseChildren us)
  | [], [], _ => by simp [compareAstChildren, eraseChildren]
  | [], _ :: _, h => by simp at h
  | _ :: _, [], h => by simp at h
  | a :: as, e :: es, h => by
    have h1 := compareAst_eq_nil a e
    have h2 := compareAstChildren_eq_nil as es (by simpa using h)
    simp [compareAstChildren, eraseChildren, h1, h2]
end

mutual
theorem Ast.erase_erase : ∀ (t : Ast), t.erase.erase = t.erase
  | .BadDecl _ _ => rfl
  | .BadExpr _ _ => rfl
  | .BadStmt _ _ => rfl
  | .Ident _ _ => rfl
  | .BasicLit _ _ _ => rfl
  | .Node _ _ _ cs => by simp [Ast.erase, eraseChildren_erase cs]
theorem eraseChildren_erase : ∀ (ts : List Ast),
    eraseChildren (eraseChildren ts) = eraseChildren ts
  | [] => rfl
  | a :: as => by simp [eraseChildren, Ast.erase_erase a, eraseChildren_erase as]
end

/-- C14: `compareAst` reports no failure exactly when the two trees are equal
once their source positions are erased. So a tree compared with itself, or
with itself at other positions, passes; identifiers of different names,
literals of different kind or value, and nodes of one type with different
operators or numbers of children are each reported as a failure; and two
Bad nodes of one type pass whatever they hold. -/
theorem compareAst_structural (t u : Ast) :
    compareAst t t = []
    ∧ compareAst t t.erase = []
    ∧ (compareAst t u = [] ↔ t.erase = u.erase)
    ∧ (∀ p q n m, n ≠ m → compareAst (.Ident p n) (.Ident q m) = [(.Ident p n, .Ident q m)])
    ∧ (∀ p q k k1 v v1, k ≠ k1 ∨ v ≠ v1 →
        compareAst (.BasicLit p k v) (.BasicLit q k1 v1)
          = [(.BasicLit p k v, .BasicLit q k1 v1)])
    ∧ (∀ n p q op op1 cs cs1, op ≠ op1 ∨ cs.length ≠ cs1.length →
        compareAst (.Node n p op cs) (.Node n q op1 cs1)
          = [(.Node n p op cs, .Node n q op1 cs1)])
    ∧ (∀ a b c d, compareAst (.BadDecl a b) (.BadDecl c d) = []
        ∧ compareAst (.BadExpr a b) (.BadExpr c d) = []
        ∧ compareAst (.BadStmt a b) (.BadStmt c d) = []) := by
  refine ⟨(compareAst_eq_nil t t).2 rfl, (compareAst_eq_nil t t.erase).2 (Ast.erase_erase t).symm,
    compareAst_eq_nil t u, ?_, ?_, ?_, ?_⟩
  · intro p q n m h
    simp [compareAst, Ast.typeOf, h]
  · intro p q k k1 v v1 h
    have : ¬ (k = k1 ∧ v = v1) := by
      rintro ⟨h1, h2⟩
      rcases h with h | h
      · exact h h1
      · exact h h2
    simp [compareAst, Ast.typeOf, this]
  · intro n p q op op1 cs cs1 h
    have : ¬ (op = op1 ∧ cs.length = cs1.length) := by
      rintro ⟨h1, h2⟩
      rcases h with h | h
      · exact h h1
      · exact h h2
    simp [compareAst, Ast.typeOf, Ast.Op, Ast.Size, Ast.children, this]
  · intro a b c d
    simp [compareAst, Ast.typeOf]

/-- Test quasiquote_1: the node `1 + 5` as the parser positions it passes
against the expected node, which has no positions; against `1 + 6` the
literal is reported. -/
theorem compareAst_test :
    compareAst
        (.Node "BinaryExpr" [14] .ADD [.BasicLit 12 .INT "1", .BasicLit 25 .INT "5"])
        (.Node "BinaryExpr" [0] .ADD [.BasicLit 0 .INT "1", .BasicLit 0 .INT "5"]) = []
    ∧ compareAst
        (.Node "BinaryExpr" [14] .ADD [.BasicLit 12 .INT "1", .BasicLit 25 .INT "5"])
        (.Node "BinaryExpr" [0] .ADD [.BasicLit 0 .INT "1", .BasicLit 0 .INT "6"])
      = [(.BasicLit 25 .INT "5", .BasicLit 0 .INT "6")] := by
  constructor <;> rfl

end Gomacro
